import Mathlib

/-!
Verification of the streaming agent-request orchestrator of this repository.

The development shallowly embeds, in Lean:

* `utils/llm/tool_streaming_callback.py` — the payload sanitizer
  (`sanitize_tool_payload`, `_looks_like_secret_key`, `_truncate_str`) and the
  `ToolStreamingCallback` tool lifecycle tracker;
* `src/api/routes/agent/agent.py` — the history helpers
  (`fetch_recent_messages`, `serialize_history`), the tool wrapping
  (`build_tool_wrappers`) and the streaming worker/consumer pair
  (`run_worker` inside `stream_generator` and the draining loop of
  `stream_generator`).

Python runtime values handled by the sanitizer are represented by the
inductive type `PyVal`; fallible collaborator operations (`model_dump`,
`str(...)`) are represented with `Option`, where `Option.none` on the inner
layer stands for "the operation raised".
-/

namespace Memegen

/-- Universe of Python values the sanitizer dispatches on.

* `obj dump strForm` models an arbitrary object: `dump = Option.none` means no
  `model_dump` attribute, `dump = some Option.none` means `model_dump` raised,
  `dump = some (some v)` means `model_dump(mode="json")` returned `v`;
  `strForm = Option.none` means `str(value)` raised, `strForm = some s` means
  `str(value) = s`.
* `bytes n` keeps only the length, which is all the code uses.
* mapping keys are kept as the strings `str(k)` the code computes. -/
inductive PyVal where
  | none
  | bool (b : Bool)
  | int (n : Int)
  | str (s : String)
  | bytes (len : Nat)
  | dict (entries : List (String × PyVal))
  | seq (items : List PyVal)
  | obj (dump : Option (Option PyVal)) (strForm : Option String)
deriving Repr

/-- Character-list version of "`pat` occurs at the beginning". -/
def charsBegin : List Char → List Char → Bool
  | [], _ => true
  | _ :: _, [] => false
  | p :: ps, c :: cs => p == c && charsBegin ps cs

/-- Character-list version of "`pat` occurs somewhere inside `hay`". -/
def charsContain (hay pat : List Char) : Bool :=
  match hay with
  | [] => pat.isEmpty
  | _ :: rest => charsBegin pat hay || charsContain rest pat

/-- Substring test on strings, used to model Python's `in` on `str`. -/
def strContains (hay pat : String) : Bool :=
  charsContain hay.data pat.data

/-- Embeds `_looks_like_secret_key` from `utils/llm/tool_streaming_callback.py`:
case-insensitive substring check against the five secret markers. -/
def looksLikeSecretKey (key : String) : Bool :=
  let lowered := String.mk (key.data.map Char.toLower)
  ["key", "token", "secret", "authorization", "cookie"].any
    (fun part => strContains lowered part)

/-- Embeds `_truncate_str`: `value[: max(0, max_len - 3)] + "..."` when longer
than `max_len` (string length counted in characters, as in Python). -/
def truncateStr (value : String) (maxLen : Nat) : String :=
  if value.length ≤ maxLen then value
  else String.mk (value.data.take (maxLen - 3)) ++ "..."

/-- Python dict lookup on a string-keyed mapping (also used for the
keyword-argument bags the callback receives). -/
def kwFind (inputs : List (String × PyVal)) (k : String) : Option PyVal :=
  match inputs with
  | [] => Option.none
  | kv :: rest => if kv.1 = k then some kv.2 else kwFind rest k

/-- Python dict assignment `out[k] = v`: overwrite an existing entry in place
(keeping its insertion position, as `dict` does), else append. -/
def kwInsert (kwargs : List (String × PyVal)) (k : String) (v : PyVal) :
    List (String × PyVal) :=
  match kwargs with
  | [] => [(k, v)]
  | kv :: rest => if kv.1 = k then (k, v) :: rest else kv :: kwInsert rest k v

lemma kwFind_kwInsert_self :
    ∀ (kwargs : List (String × PyVal)) (k : String) (v : PyVal),
      kwFind (kwInsert kwargs k v) k = some v
  | [], k, v => by simp [kwInsert, kwFind]
  | kv :: rest, k, v => by
    by_cases h : kv.1 = k
    · simp [kwInsert, h, kwFind]
    · simp [kwInsert, h, kwFind, kwFind_kwInsert_self rest k v]

lemma kwFind_kwInsert_ne :
    ∀ (kwargs : List (String × PyVal)) (k k' : String) (v : PyVal), k' ≠ k →
      kwFind (kwInsert kwargs k v) k' = kwFind kwargs k'
  | [], k, k', v, h => by
    have hne : ¬ (k = k') := fun hk => h hk.symm
    simp [kwInsert, kwFind, hne]
  | kv :: rest, k, k', v, h => by
    by_cases hk : kv.1 = k
    · have hne1 : ¬ (k = k') := fun hkk => h hkk.symm
      have hne2 : ¬ (kv.1 = k') := by rw [hk]; exact hne1
      simp [kwInsert, hk, kwFind, hne1, hne2]
    · by_cases hk' : kv.1 = k'
      · simp only [kwInsert, if_neg hk, kwFind, if_pos hk']
      · simp only [kwInsert, if_neg hk, kwFind, if_neg hk']
        exact kwFind_kwInsert_ne rest k k' v h

lemma mem_of_kwFind :
    ∀ (out : List (String × PyVal)) (k : String) (v : PyVal),
      kwFind out k = some v → (k, v) ∈ out
  | [], k, v, h => by simp [kwFind] at h
  | (k1, v1) :: rest, k, v, h => by
    by_cases hk : k1 = k
    · simp only [kwFind, if_pos (show (k1, v1).1 = k from hk)] at h
      subst hk
      cases h
      exact List.mem_cons_self _ _
    · simp only [kwFind, if_neg (show ¬ (k1, v1).1 = k from hk)] at h
      exact List.mem_cons_of_mem _ (mem_of_kwFind rest k v h)

/-- The sanitizer's mapping loop: process the entries in order, performing
`out[key_str] = ...` with dict-overwrite semantics; `san` is the per-entry
value transformation. -/
def assignEntries (san : String → PyVal → PyVal) :
    List (String × PyVal) → List (String × PyVal) → List (String × PyVal)
  | out, [] => out
  | out, (k, v) :: rest => assignEntries san (kwInsert out k (san k v)) rest

lemma assignEntries_preserve {P : List (String × PyVal) → Prop}
    (san : String → PyVal → PyVal)
    (hstep : ∀ out k v, P out → P (kwInsert out k (san k v))) :
    ∀ (L out : List (String × PyVal)), P out → P (assignEntries san out L)
  | [], _, h => h
  | (k, v) :: rest, out, h =>
    assignEntries_preserve san hstep rest (kwInsert out k (san k v)) (hstep out k v h)

lemma kwInsert_length_le :
    ∀ (out : List (String × PyVal)) (k : String) (v : PyVal),
      (kwInsert out k v).length ≤ out.length + 1
  | [], _, _ => by simp [kwInsert]
  | kv :: rest, k, v => by
    by_cases h : kv.1 = k
    · simp [kwInsert, h]
    · simp only [kwInsert, if_neg h, List.length_cons]
      have := kwInsert_length_le rest k v
      omega

lemma assignEntries_length_le (san : String → PyVal → PyVal) :
    ∀ (L out : List (String × PyVal)),
      (assignEntries san out L).length ≤ out.length + L.length
  | [], out => by simp [assignEntries]
  | (k, v) :: rest, out => by
    have h1 := assignEntries_length_le san rest (kwInsert out k (san k v))
    have h2 := kwInsert_length_le out k (san k v)
    show (assignEntries san (kwInsert out k (san k v)) rest).length ≤
      out.length + (rest.length + 1)
    omega

lemma kwInsert_of_not_mem_keys :
    ∀ (out : List (String × PyVal)) (k : String) (v : PyVal),
      k ∉ out.map Prod.fst → kwInsert out k v = out ++ [(k, v)]
  | [], _, _, _ => rfl
  | kv :: rest, k, v, h => by
    have hk : ¬ (kv.1 = k) := fun he => h (by simp [he])
    simp only [kwInsert, if_neg hk, List.cons_append]
    rw [kwInsert_of_not_mem_keys rest k v (fun hm => h (by simp [hm]))]

lemma kwInsert_keys_sub :
    ∀ (out : List (String × PyVal)) (k : String) (v : PyVal) (q : String),
      q ∈ (kwInsert out k v).map Prod.fst → q ∈ out.map Prod.fst ∨ q = k
  | [], k, v, q, h => by
    simp [kwInsert] at h
    exact Or.inr h
  | kv :: rest, k, v, q, h => by
    by_cases hk : kv.1 = k
    · simp only [kwInsert, if_pos hk, List.map_cons, List.mem_cons] at h
      rcases h with h | h
      · exact Or.inr h
      · exact Or.inl (List.mem_cons_of_mem _ h)
    · simp only [kwInsert, if_neg hk, List.map_cons, List.mem_cons] at h
      rcases h with h | h
      · exact Or.inl (h ▸ List.mem_cons_self _ _)
      · rcases kwInsert_keys_sub rest k v q h with h2 | h2
        · exact Or.inl (List.mem_cons_of_mem _ h2)
        · exact Or.inr h2

lemma assignEntries_keys_sub (san : String → PyVal → PyVal) :
    ∀ (L out : List (String × PyVal)) (q : String),
      q ∈ (assignEntries san out L).map Prod.fst →
      q ∈ out.map Prod.fst ∨ q ∈ L.map Prod.fst
  | [], _, _, h => Or.inl h
  | (k, v) :: rest, out, q, h => by
    rcases assignEntries_keys_sub san rest (kwInsert out k (san k v)) q h with h1 | h1
    · rcases kwInsert_keys_sub out k (san k v) q h1 with h2 | h2
      · exact Or.inl h2
      · exact Or.inr (h2 ▸ List.mem_cons_self _ _)
    · exact Or.inr (List.mem_cons_of_mem _ h1)

lemma assignEntries_length_nodup (san : String → PyVal → PyVal) :
    ∀ (L out : List (String × PyVal)), (L.map Prod.fst).Nodup →
      (∀ q ∈ L.map Prod.fst, q ∉ out.map Prod.fst) →
      (assignEntries san out L).length = out.length + L.length
  | [], out, _, _ => by simp [assignEntries]
  | (k, v) :: rest, out, hnd, hdisj => by
    have hkout : k ∉ out.map Prod.fst := hdisj k (List.mem_cons_self _ _)
    have hcons : (k :: rest.map Prod.fst).Nodup := hnd
    have hnd2 : (rest.map Prod.fst).Nodup := (List.nodup_cons.mp hcons).2
    have hkrest : k ∉ rest.map Prod.fst := (List.nodup_cons.mp hcons).1
    have hdisj2 : ∀ q ∈ rest.map Prod.fst,
        q ∉ (kwInsert out k (san k v)).map Prod.fst := by
      intro q hq hmem
      rcases kwInsert_keys_sub out k (san k v) q hmem with h1 | h1
      · exact hdisj q (List.mem_cons_of_mem _ hq) h1
      · exact hkrest (h1 ▸ hq)
    have hrec := assignEntries_length_nodup san rest (kwInsert out k (san k v)) hnd2 hdisj2
    have hins := kwInsert_of_not_mem_keys out k (san k v) hkout
    show (assignEntries san (kwInsert out k (san k v)) rest).length =
      out.length + (rest.length + 1)
    rw [hrec, hins]
    simp
    omega

lemma kwFind_assignEntries_persist (san : String → PyVal → PyVal) (k0 : String)
    (v0 : PyVal) (hsan : ∀ v, san k0 v = v0) :
    ∀ (L out : List (String × PyVal)), kwFind out k0 = some v0 →
      kwFind (assignEntries san out L) k0 = some v0
  | [], _, h => h
  | (k, v) :: rest, out, h => by
    by_cases hk : k = k0
    · subst hk
      refine kwFind_assignEntries_persist san k v0 hsan rest _ ?_
      rw [kwFind_kwInsert_self, hsan v]
    · refine kwFind_assignEntries_persist san k0 v0 hsan rest _ ?_
      rw [kwFind_kwInsert_ne out k k0 (san k v) (fun he => hk he.symm)]
      exact h

lemma kwFind_assignEntries_mem (san : String → PyVal → PyVal) (k0 : String)
    (v0 : PyVal) (hsan : ∀ v, san k0 v = v0) :
    ∀ (L out : List (String × PyVal)) (v : PyVal), (k0, v) ∈ L →
      kwFind (assignEntries san out L) k0 = some v0
  | [], _, v, h => absurd h (List.not_mem_nil _)
  | (k, w) :: rest, out, v, h => by
    by_cases hk : k = k0
    · subst hk
      refine kwFind_assignEntries_persist san k v0 hsan rest _ ?_
      rw [kwFind_kwInsert_self, hsan w]
    · rcases List.mem_cons.mp h with heq | hmem
      · exact absurd (congrArg Prod.fst heq).symm hk
      · exact kwFind_assignEntries_mem san k0 v0 hsan rest _ v hmem

/-- Embeds `sanitize_tool_payload`.  The first argument is `max_depth`
(the Python code treats every `max_depth <= 0` as exhausted, which the `Nat`
zero case captures); recursion always descends with `max_depth - 1` exactly as
in the source. -/
def sanitize : Nat → Nat → Nat → PyVal → PyVal
  | 0, _, _, _ => .str "<truncated>"
  | d + 1, maxItems, maxStrLen, v =>
    match v with
    | .none => .none
    | .bool b => .bool b
    | .int n => .int n
    | .str s => .str (truncateStr s maxStrLen)
    | .bytes len => .str ("<bytes len=" ++ toString len ++ ">")
    | .dict entries =>
      let out := assignEntries
        (fun k v =>
          if looksLikeSecretKey k then PyVal.str "[REDACTED]"
          else sanitize d maxItems maxStrLen v)
        [] (entries.take maxItems)
      if maxItems < entries.length then
        .dict (kwInsert out "<truncated>"
          (.str ("+" ++ toString (entries.length - maxItems) ++ " more items")))
      else .dict out
    | .seq items =>
      let outList := (items.take maxItems).map (sanitize d maxItems maxStrLen)
      if maxItems < items.length then
        .seq (outList ++ [.str ("<truncated +" ++ toString (items.length - maxItems) ++ " items>")])
      else .seq outList
    | .obj dump strForm =>
      match dump with
      | some (some dumped) => sanitize d maxItems maxStrLen dumped
      | _ =>
        match strForm with
        | some s => .str (truncateStr s maxStrLen)
        | Option.none => .str "<unserializable>"

example :
    sanitize 4 50 2048 (.dict [("api_key", .str "sk-live-abc"), ("q", .str "hi")]) =
      .dict [("api_key", .str "[REDACTED]"), ("q", .str "hi")] := rfl

example : sanitize 4 50 2048 (.str "hello") = .str "hello" := rfl

example : sanitize 4 50 0 (.str "abc") = .str "..." := rfl

/-- `true` exactly for the fixed redaction marker value placed on secret keys. -/
def isRedactedMarker : PyVal → Bool
  | .str s => s == "[REDACTED]"
  | _ => false

mutual

/-- Every mapping entry anywhere inside the value whose key looks like a secret
carries the fixed redaction marker as its value. -/
def secretsRedacted : PyVal → Bool
  | PyVal.dict entries => secretsRedactedEntries entries
  | PyVal.seq items => secretsRedactedItems items
  | _ => true

def secretsRedactedEntries : List (String × PyVal) → Bool
  | [] => true
  | (k, v) :: rest =>
    (!looksLikeSecretKey k || isRedactedMarker v) && secretsRedacted v &&
      secretsRedactedEntries rest

def secretsRedactedItems : List PyVal → Bool
  | [] => true
  | v :: rest => secretsRedacted v && secretsRedactedItems rest

end

mutual

/-- The value is built from JSON-friendly constructors only: no raw object and
no raw byte blob survives (what the sanitizer's docstring calls
"ensure JSON-serializable output"). -/
def isSerializedVal : PyVal → Bool
  | PyVal.dict entries => isSerializedEntries entries
  | PyVal.seq items => isSerializedItems items
  | PyVal.obj _ _ => false
  | PyVal.bytes _ => false
  | _ => true

def isSerializedEntries : List (String × PyVal) → Bool
  | [] => true
  | (_, v) :: rest => isSerializedVal v && isSerializedEntries rest

def isSerializedItems : List PyVal → Bool
  | [] => true
  | v :: rest => isSerializedVal v && isSerializedItems rest

end

/-- Entries of a mapping value (`[]` for any non-mapping). -/
def dictEntriesOf : PyVal → List (String × PyVal)
  | .dict entries => entries
  | _ => []

/-- Items of a sequence value (`[]` for any non-sequence). -/
def seqItemsOf : PyVal → List PyVal
  | .seq items => items
  | _ => []

/-- Length of a string value (`0` for any non-string). -/
def strLenOf : PyVal → Nat
  | .str s => s.length
  | _ => 0

lemma secretsRedactedEntries_append :
    ∀ l₁ l₂, secretsRedactedEntries (l₁ ++ l₂) =
      (secretsRedactedEntries l₁ && secretsRedactedEntries l₂)
  | [], _ => by simp [secretsRedactedEntries]
  | (k, v) :: rest, l₂ => by
    simp [secretsRedactedEntries, secretsRedactedEntries_append rest l₂, Bool.and_assoc]

lemma secretsRedactedEntries_of_forall :
    ∀ l : List (String × PyVal),
      (∀ kv ∈ l,
        ((!looksLikeSecretKey kv.1 || isRedactedMarker kv.2) &&
          secretsRedacted kv.2) = true) →
      secretsRedactedEntries l = true
  | [], _ => rfl
  | (k, v) :: rest, h => by
    have h1 := h (k, v) (by simp)
    have h2 := secretsRedactedEntries_of_forall rest (fun kv hm => h kv (by simp [hm]))
    simp only [secretsRedactedEntries, h2, Bool.and_true]
    simpa using h1

lemma secretsRedactedItems_append :
    ∀ l₁ l₂, secretsRedactedItems (l₁ ++ l₂) =
      (secretsRedactedItems l₁ && secretsRedactedItems l₂)
  | [], _ => by simp [secretsRedactedItems]
  | v :: rest, l₂ => by
    simp [secretsRedactedItems, secretsRedactedItems_append rest l₂, Bool.and_assoc]

lemma secretsRedactedItems_of_forall :
    ∀ l : List PyVal, (∀ v ∈ l, secretsRedacted v = true) → secretsRedactedItems l = true
  | [], _ => rfl
  | v :: rest, h => by
    have h1 := h v (by simp)
    have h2 := secretsRedactedItems_of_forall rest (fun w hm => h w (by simp [hm]))
    simp [secretsRedactedItems, h1, h2]

lemma secretsRedactedEntries_kwInsert :
    ∀ (out : List (String × PyVal)) (k : String) (v : PyVal),
      secretsRedactedEntries out = true →
      ((!looksLikeSecretKey k || isRedactedMarker v) && secretsRedacted v) = true →
      secretsRedactedEntries (kwInsert out k v) = true
  | [], k, v, _, hv => by
    have hv2 := hv
    simp only [Bool.and_eq_true] at hv2
    show secretsRedactedEntries [(k, v)] = true
    simp [secretsRedactedEntries, hv2.1, hv2.2]
  | (k1, v1) :: rest, k, v, hout, hv => by
    simp only [secretsRedactedEntries, Bool.and_eq_true] at hout
    by_cases hk : k1 = k
    · simp only [kwInsert, if_pos (show (k1, v1).1 = k from hk), secretsRedactedEntries,
        Bool.and_eq_true]
      exact ⟨by simpa [Bool.and_eq_true] using hv, hout.2⟩
    · simp only [kwInsert, if_neg (show ¬ (k1, v1).1 = k from hk), secretsRedactedEntries,
        Bool.and_eq_true]
      exact ⟨hout.1, secretsRedactedEntries_kwInsert rest k v hout.2 hv⟩

/-- Every value produced by the sanitizer satisfies the global redaction
invariant: at every nesting level of the output, any mapping entry whose key
looks like a secret carries the fixed `"[REDACTED]"` marker. -/
lemma sanitize_secretsRedacted :
    ∀ (d maxItems maxStrLen : Nat) (v : PyVal),
      secretsRedacted (sanitize d maxItems maxStrLen v) = true
  | 0, _, _, _ => rfl
  | d + 1, mi, ms, v => by
    cases v with
    | none => rfl
    | bool b => rfl
    | int n => rfl
    | str s => rfl
    | bytes len => rfl
    | dict entries =>
      have hstep : ∀ (out : List (String × PyVal)) (k : String) (w : PyVal),
          secretsRedactedEntries out = true →
          secretsRedactedEntries (kwInsert out k
            (if looksLikeSecretKey k then PyVal.str "[REDACTED]"
             else sanitize d mi ms w)) = true := by
        intro out k w hout
        by_cases hsec : looksLikeSecretKey k = true
        · refine secretsRedactedEntries_kwInsert out k _ hout ?_
          simp [hsec, isRedactedMarker, secretsRedacted]
        · have hsec2 : looksLikeSecretKey k = false := by
            simpa [Bool.not_eq_true] using hsec
          refine secretsRedactedEntries_kwInsert out k _ hout ?_
          simp [hsec2, sanitize_secretsRedacted d mi ms w]
      have hout : secretsRedactedEntries
          (assignEntries (fun k w =>
            if looksLikeSecretKey k then PyVal.str "[REDACTED]"
            else sanitize d mi ms w) [] (entries.take mi)) = true :=
        assignEntries_preserve _ hstep (entries.take mi) [] rfl
      have hmark : looksLikeSecretKey "<truncated>" = false := by decide
      show secretsRedacted (sanitize (d + 1) mi ms (.dict entries)) = true
      simp only [sanitize]
      split
      · refine secretsRedactedEntries_kwInsert _ _ _ hout ?_
        simp [hmark, secretsRedacted]
      · exact hout
    | seq items =>
      have hkept : secretsRedactedItems
          ((items.take mi).map (sanitize d mi ms)) = true := by
        apply secretsRedactedItems_of_forall
        intro w hw
        rcases List.mem_map.mp hw with ⟨w0, _, hfw⟩
        exact hfw ▸ sanitize_secretsRedacted d mi ms w0
      show secretsRedacted (sanitize (d + 1) mi ms (.seq items)) = true
      simp only [sanitize]
      split
      · show secretsRedactedItems _ = true
        rw [secretsRedactedItems_append, hkept]
        simp [secretsRedactedItems, secretsRedacted]
      · exact hkept
    | obj dump strForm =>
      show secretsRedacted (sanitize (d + 1) mi ms (.obj dump strForm)) = true
      match dump with
      | some (some dumped) => exact sanitize_secretsRedacted d mi ms dumped
      | some Option.none =>
        cases strForm with
        | none => rfl
        | some s => rfl
      | Option.none =>
        cases strForm with
        | none => rfl
        | some s => rfl

lemma isSerializedEntries_append :
    ∀ l₁ l₂, isSerializedEntries (l₁ ++ l₂) =
      (isSerializedEntries l₁ && isSerializedEntries l₂)
  | [], _ => by simp [isSerializedEntries]
  | (k, v) :: rest, l₂ => by
    simp [isSerializedEntries, isSerializedEntries_append rest l₂, Bool.and_assoc]

lemma isSerializedEntries_of_forall :
    ∀ l : List (String × PyVal), (∀ kv ∈ l, isSerializedVal kv.2 = true) →
      isSerializedEntries l = true
  | [], _ => rfl
  | (k, v) :: rest, h => by
    have h1 := h (k, v) (by simp)
    have h2 := isSerializedEntries_of_forall rest (fun kv hm => h kv (by simp [hm]))
    simp [isSerializedEntries, h1, h2]

lemma isSerializedItems_append :
    ∀ l₁ l₂, isSerializedItems (l₁ ++ l₂) =
      (isSerializedItems l₁ && isSerializedItems l₂)
  | [], _ => by simp [isSerializedItems]
  | v :: rest, l₂ => by
    simp [isSerializedItems, isSerializedItems_append rest l₂, Bool.and_assoc]

lemma isSerializedItems_of_forall :
    ∀ l : List PyVal, (∀ v ∈ l, isSerializedVal v = true) → isSerializedItems l = true
  | [], _ => rfl
  | v :: rest, h => by
    have h1 := h v (by simp)
    have h2 := isSerializedItems_of_forall rest (fun w hm => h w (by simp [hm]))
    simp [isSerializedItems, h1, h2]

lemma isSerializedEntries_kwInsert :
    ∀ (out : List (String × PyVal)) (k : String) (v : PyVal),
      isSerializedEntries out = true → isSerializedVal v = true →
      isSerializedEntries (kwInsert out k v) = true
  | [], k, v, _, hv => by
    show isSerializedEntries [(k, v)] = true
    simp [isSerializedEntries, hv]
  | (k1, v1) :: rest, k, v, hout, hv => by
    simp only [isSerializedEntries, Bool.and_eq_true] at hout
    by_cases hk : k1 = k
    · simp only [kwInsert, if_pos (show (k1, v1).1 = k from hk), isSerializedEntries,
        Bool.and_eq_true]
      exact ⟨hv, hout.2⟩
    · simp only [kwInsert, if_neg (show ¬ (k1, v1).1 = k from hk), isSerializedEntries,
        Bool.and_eq_true]
      exact ⟨hout.1, isSerializedEntries_kwInsert rest k v hout.2 hv⟩

/-- The sanitizer always returns a plain JSON-like value: no raw object and no
raw byte blob survives in the output, whatever the input. -/
lemma sanitize_isSerialized :
    ∀ (d maxItems maxStrLen : Nat) (v : PyVal),
      isSerializedVal (sanitize d maxItems maxStrLen v) = true
  | 0, _, _, _ => rfl
  | d + 1, mi, ms, v => by
    cases v with
    | none => rfl
    | bool b => rfl
    | int n => rfl
    | str s => rfl
    | bytes len => rfl
    | dict entries =>
      have hstep : ∀ (out : List (String × PyVal)) (k : String) (w : PyVal),
          isSerializedEntries out = true →
          isSerializedEntries (kwInsert out k
            (if looksLikeSecretKey k then PyVal.str "[REDACTED]"
             else sanitize d mi ms w)) = true := by
        intro out k w hout
        by_cases hsec : looksLikeSecretKey k = true
        · refine isSerializedEntries_kwInsert out k _ hout ?_
          simp [hsec, isSerializedVal]
        · have hsec2 : looksLikeSecretKey k = false := by
            simpa [Bool.not_eq_true] using hsec
          refine isSerializedEntries_kwInsert out k _ hout ?_
          simp [hsec2, sanitize_isSerialized d mi ms w]
      have hout : isSerializedEntries
          (assignEntries (fun k w =>
            if looksLikeSecretKey k then PyVal.str "[REDACTED]"
            else sanitize d mi ms w) [] (entries.take mi)) = true :=
        assignEntries_preserve _ hstep (entries.take mi) [] rfl
      show isSerializedVal (sanitize (d + 1) mi ms (.dict entries)) = true
      simp only [sanitize]
      split
      · exact isSerializedEntries_kwInsert _ _ _ hout rfl
      · exact hout
    | seq items =>
      have hkept : isSerializedItems
          ((items.take mi).map (sanitize d mi ms)) = true := by
        apply isSerializedItems_of_forall
        intro w hw
        rcases List.mem_map.mp hw with ⟨w0, _, hfw⟩
        exact hfw ▸ sanitize_isSerialized d mi ms w0
      show isSerializedVal (sanitize (d + 1) mi ms (.seq items)) = true
      simp only [sanitize]
      split
      · show isSerializedItems _ = true
        rw [isSerializedItems_append, hkept]
        rfl
      · exact hkept
    | obj dump strForm =>
      show isSerializedVal (sanitize (d + 1) mi ms (.obj dump strForm)) = true
      match dump with
      | some (some dumped) => exact sanitize_isSerialized d mi ms dumped
      | some Option.none =>
        cases strForm with
        | none => rfl
        | some s => rfl
      | Option.none =>
        cases strForm with
        | none => rfl
        | some s => rfl

/-- A mapping with the default item cap's worth of filler entries followed by a
secret-looking key: the secret entry sits just past the cap. -/
def secretDictInput : List (String × PyVal) :=
  ((List.range 50).map fun i => (toString i, PyVal.int i)) ++
    [("api_key", PyVal.str "sk-live-abc")]

/-- C2 counterexample: `"api_key"` is a secret-looking key of the input mapping
and the depth budget is the default 4, yet with the default item cap of 50 the
sanitized output does not map `"api_key"` at all (it is dropped by the item
cap), so the output does not map it to `"[REDACTED]"`. -/
theorem sanitize_redaction_beyond_cap_counterexample :
    looksLikeSecretKey "api_key" = true ∧
    secretDictInput.get? 50 = some ("api_key", PyVal.str "sk-live-abc") ∧
    "api_key" ∉ (dictEntriesOf (sanitize 4 50 2048 (PyVal.dict secretDictInput))).map Prod.fst := by
  refine ⟨rfl, rfl, ?_⟩
  decide

/-- C2 (amended): a secret-looking key among the first `max_items` entries of a
mapping is mapped to the fixed `"[REDACTED]"` marker whenever depth budget
remains, and — at every nesting depth — every secret-looking key that appears
in the sanitized output at all carries the marker; keys beyond the item cap are
dropped entirely rather than redacted. -/
theorem sanitize_redacts_secret_keys :
    (∀ (d maxItems maxStrLen : Nat) (v : PyVal),
      secretsRedacted (sanitize d maxItems maxStrLen v) = true) ∧
    (∀ (d maxItems maxStrLen : Nat) (entries : List (String × PyVal))
        (i : Nat) (k : String) (v : PyVal),
      i < maxItems → entries.get? i = some (k, v) → looksLikeSecretKey k = true →
      (k, PyVal.str "[REDACTED]") ∈
        dictEntriesOf (sanitize (d + 1) maxItems maxStrLen (PyVal.dict entries))) := by
  constructor
  · exact sanitize_secretsRedacted
  · intro d mi ms entries i k v hi hget hsec
    have htake : (entries.take mi).get? i = some (k, v) := by
      rw [List.get?_take hi]; exact hget
    have hmem : (k, v) ∈ entries.take mi := List.get?_mem htake
    have hsan : ∀ w, (fun k w =>
        if looksLikeSecretKey k then PyVal.str "[REDACTED]"
        else sanitize d mi ms w) k w = PyVal.str "[REDACTED]" := fun w => by
      simp [hsec]
    have hfind : kwFind (assignEntries (fun k w =>
        if looksLikeSecretKey k then PyVal.str "[REDACTED]"
        else sanitize d mi ms w) [] (entries.take mi)) k =
          some (PyVal.str "[REDACTED]") :=
      kwFind_assignEntries_mem _ k _ hsan (entries.take mi) [] v hmem
    have hkne : k ≠ "<truncated>" := by
      intro he
      rw [he] at hsec
      exact absurd hsec (by decide)
    show (k, PyVal.str "[REDACTED]") ∈
      dictEntriesOf (sanitize (d + 1) mi ms (PyVal.dict entries))
    simp only [sanitize]
    split
    · simp only [dictEntriesOf]
      refine mem_of_kwFind _ _ _ ?_
      rw [kwFind_kwInsert_ne _ _ _ _ hkne]
      exact hfind
    · simp only [dictEntriesOf]
      exact mem_of_kwFind _ _ _ hfind

/-- C2 witness: concrete instance of the amended positional-redaction clause. -/
theorem sanitize_redacts_secret_keys_witness :
    0 < 50 ∧
    ("api_key", PyVal.str "[REDACTED]") ∈
      dictEntriesOf (sanitize 4 50 2048 (PyVal.dict [("api_key", PyVal.str "x")])) :=
  ⟨by decide,
    sanitize_redacts_secret_keys.2 3 50 2048 [("api_key", PyVal.str "x")] 0 "api_key"
      (PyVal.str "x") (by decide) rfl rfl⟩

/-- A 51-entry mapping whose first key is the literal `"<truncated>"`, so the
marker assignment `out["<truncated>"] = ...` overwrites a kept entry. -/
def truncKeyDictInput : List (String × PyVal) :=
  ("<truncated>", PyVal.int 99) ::
    (((List.range 49).map fun i => (toString i, PyVal.int i)) ++
      [("z", PyVal.str "tail")])

/-- C4 counterexample: (i) with `max_str_len = 0` the string `"abc"` is longer
than the configured maximum, yet the sanitized string is the three-character
truncation marker `"..."`, whose length exceeds the configured maximum;
(ii) with the default item cap 50, a 51-entry mapping whose first kept key is
the literal `"<truncated>"` sanitizes to a mapping of 50 entries — the marker
assignment overwrites the kept `"<truncated>"` entry — not `max_items + 1`. -/
theorem sanitize_strlen_counterexample :
    (0 < "abc".length ∧ ¬ strLenOf (sanitize 4 50 0 (PyVal.str "abc")) ≤ 0) ∧
    (truncKeyDictInput.length = 51 ∧
      (dictEntriesOf (sanitize 4 50 2048 (PyVal.dict truncKeyDictInput))).length = 50 ∧
      (dictEntriesOf (sanitize 4 50 2048 (PyVal.dict truncKeyDictInput))).length ≠
        50 + 1) := by
  refine ⟨⟨by decide, by decide⟩, by decide, by decide, by decide⟩

/-- C4 (amended): for a configured maximum string length of at least 3 (in
particular the default 2048), any longer string sanitizes to a string of length
at most the maximum (for maxima below 3 the result is the fixed three-character
marker); any sequence with more items than the item cap sanitizes to exactly
`max_items + 1` items, the extra one being the truncation marker; and any
mapping with more entries than the item cap sanitizes to at most
`max_items + 1` entries — with exactly `max_items + 1` whenever the first
`max_items` string keys are pairwise distinct and none is the literal
`"<truncated>"` (the marker assignment overwrites a kept `"<truncated>"` key,
and colliding string-key forms collapse). -/
theorem sanitize_bounding :
    (∀ (maxItems maxStrLen : Nat) (s : String), 3 ≤ maxStrLen → maxStrLen < s.length →
      strLenOf (sanitize 4 maxItems maxStrLen (PyVal.str s)) ≤ maxStrLen) ∧
    (∀ (maxItems maxStrLen : Nat) (entries : List (String × PyVal)),
      maxItems < entries.length →
      (dictEntriesOf (sanitize 4 maxItems maxStrLen (PyVal.dict entries))).length ≤
        maxItems + 1) ∧
    (∀ (maxItems maxStrLen : Nat) (entries : List (String × PyVal)),
      maxItems < entries.length →
      ((entries.take maxItems).map Prod.fst).Nodup →
      "<truncated>" ∉ (entries.take maxItems).map Prod.fst →
      (dictEntriesOf (sanitize 4 maxItems maxStrLen (PyVal.dict entries))).length =
        maxItems + 1) ∧
    (∀ (maxItems maxStrLen : Nat) (items : List PyVal),
      maxItems < items.length →
      (seqItemsOf (sanitize 4 maxItems maxStrLen (PyVal.seq items))).length =
        maxItems + 1) := by
  refine ⟨?_, ?_, ?_, ?_⟩
  · intro mi L s h3 hlong
    show (truncateStr s L).length ≤ L
    unfold truncateStr
    rw [if_neg (by omega)]
    have hlen : (String.mk (s.data.take (L - 3)) ++ "...").length =
        (s.data.take (L - 3)).length + 3 := by
      rw [String.length_append]
      rfl
    rw [hlen]
    have := List.length_take_le (L - 3) s.data
    omega
  · intro mi ms entries hlt
    have key : ∀ (san : String → PyVal → PyVal),
        (kwInsert (assignEntries san [] (entries.take mi)) "<truncated>"
          (PyVal.str ("+" ++ toString (entries.length - mi) ++ " more items"))).length ≤
          mi + 1 := by
      intro san
      have h1 := assignEntries_length_le san (entries.take mi) []
      have h2 := kwInsert_length_le (assignEntries san [] (entries.take mi)) "<truncated>"
        (PyVal.str ("+" ++ toString (entries.length - mi) ++ " more items"))
      have h3 : (entries.take mi).length ≤ mi := List.length_take_le _ _
      simp only [List.length_nil] at h1
      omega
    show (dictEntriesOf (sanitize 4 mi ms (PyVal.dict entries))).length ≤ mi + 1
    simp only [sanitize]
    rw [if_pos hlt]
    simp only [dictEntriesOf]
    exact key _
  · intro mi ms entries hlt hnodup hmark
    have key : ∀ (san : String → PyVal → PyVal),
        (kwInsert (assignEntries san [] (entries.take mi)) "<truncated>"
          (PyVal.str ("+" ++ toString (entries.length - mi) ++ " more items"))).length =
          mi + 1 := by
      intro san
      have hlen0 : (assignEntries san [] (entries.take mi)).length =
          (entries.take mi).length := by
        have := assignEntries_length_nodup san (entries.take mi) []
          hnodup (by intro q _ hq; simp at hq)
        simpa using this
      have htklen : (entries.take mi).length = mi := by
        simp [List.length_take, Nat.min_eq_left (Nat.le_of_lt hlt)]
      have hnm : "<truncated>" ∉
          (assignEntries san [] (entries.take mi)).map Prod.fst := by
        intro hmem
        rcases assignEntries_keys_sub san (entries.take mi) [] _ hmem with h | h
        · simp at h
        · exact hmark h
      rw [kwInsert_of_not_mem_keys _ _ _ hnm]
      simp [hlen0, htklen]
    show (dictEntriesOf (sanitize 4 mi ms (PyVal.dict entries))).length = mi + 1
    simp only [sanitize]
    rw [if_pos hlt]
    simp only [dictEntriesOf]
    exact key _
  · intro mi ms items hlt
    show (seqItemsOf (sanitize 4 mi ms (PyVal.seq items))).length = mi + 1
    simp only [sanitize]
    rw [if_pos hlt]
    simp [seqItemsOf, List.length_take, Nat.min_eq_left (Nat.le_of_lt hlt)]

/-- C4 witness: concrete instances of the amended bounding clauses. -/
theorem sanitize_bounding_witness :
    (3 ≤ 4 ∧ strLenOf (sanitize 4 50 4 (PyVal.str "abcdefgh")) ≤ 4) ∧
    (1 < 2 ∧
      (dictEntriesOf (sanitize 4 1 2048
        (PyVal.dict [("a", PyVal.int 1), ("b", PyVal.int 2)]))).length ≤ 1 + 1) ∧
    (1 < 2 ∧
      (dictEntriesOf (sanitize 4 1 2048
        (PyVal.dict [("a", PyVal.int 1), ("b", PyVal.int 2)]))).length = 1 + 1) ∧
    (1 < 3 ∧
      (seqItemsOf (sanitize 4 1 2048
        (PyVal.seq [PyVal.int 1, PyVal.int 2, PyVal.int 3]))).length = 1 + 1) :=
  ⟨⟨by decide, sanitize_bounding.1 50 4 "abcdefgh" (by decide) (by decide)⟩,
   ⟨by decide, sanitize_bounding.2.1 1 2048 [("a", PyVal.int 1), ("b", PyVal.int 2)]
     (by decide)⟩,
   ⟨by decide, sanitize_bounding.2.2.1 1 2048 [("a", PyVal.int 1), ("b", PyVal.int 2)]
     (by decide) (by decide) (by decide)⟩,
   ⟨by decide, sanitize_bounding.2.2.2 1 2048 [PyVal.int 1, PyVal.int 2, PyVal.int 3]
     (by decide)⟩⟩

/-- C5: the sanitizer is a total function on the embedded value universe — it
always returns a plain JSON-like value (no raw object / byte blob in the
output), and the fallible collaborator operations are absorbed: an object whose
`model_dump` raises falls back to its (truncated) display string, and an object
whose `model_dump` and `str(...)` both raise yields the fixed
`"<unserializable>"` marker; no exception propagates. -/
theorem sanitize_never_raises :
    (∀ (d maxItems maxStrLen : Nat) (v : PyVal),
      isSerializedVal (sanitize d maxItems maxStrLen v) = true) ∧
    (∀ (d maxItems maxStrLen : Nat) (s : String),
      sanitize (d + 1) maxItems maxStrLen (PyVal.obj (some Option.none) (some s)) =
        PyVal.str (truncateStr s maxStrLen)) ∧
    (∀ (d maxItems maxStrLen : Nat),
      sanitize (d + 1) maxItems maxStrLen (PyVal.obj (some Option.none) Option.none) =
        PyVal.str "<unserializable>") ∧
    (∀ (d maxItems maxStrLen : Nat),
      sanitize (d + 1) maxItems maxStrLen (PyVal.obj Option.none Option.none) =
        PyVal.str "<unserializable>") :=
  ⟨sanitize_isSerialized, fun _ _ _ _ => rfl, fun _ _ _ => rfl, fun _ _ _ => rfl⟩

/-! ## Tool lifecycle tracker (`ToolStreamingCallback`) -/

/-- Python truthiness for the embedded value universe (`if not tool_args`).
Objects without ``__bool__``/``__len__`` are truthy, which the `obj` case
reflects. -/
def pyTruthy : PyVal → Bool
  | .none => false
  | .bool b => b
  | .int n => n != 0
  | .str s => s ≠ ""
  | .bytes len => len != 0
  | .dict entries => !entries.isEmpty
  | .seq items => !items.isEmpty
  | .obj _ _ => true

/-- `is a dict` test used by `on_tool_start` when wrapping non-mapping args. -/
def isDictVal : PyVal → Bool
  | .dict _ => true
  | _ => false

/-- The per-tool display hint (`__tool_display__`), already resolved through the
`instance` / `instance.func` lookup chain: a static string, a callable from the
sanitized args (whose failure is modelled by `Option.none`), or a value of
another type. -/
inductive DisplayMeta where
  | static (s : String)
  | callable (f : PyVal → Option PyVal)
  | other

/-- A tool instance as the callback sees it: its resolved name (`__name__`,
`name` or the type name) and its optional display hint. -/
structure ToolInstance where
  name : String
  displayMeta : Option DisplayMeta

/-- The internal pseudo-tools excluded from tracking (`INTERNAL_TOOLS`). -/
def internalToolNames : List String := ["finish", "Finish"]

/-- Embeds `ToolStreamingCallback._tool_display`: static strings are returned
as-is; callables are invoked with the sanitized args and their result kept only
when it is a non-empty string; failures and other types yield no display. -/
def toolDisplay (inst : ToolInstance) (sanitizedArgs : PyVal) : Option String :=
  match inst.displayMeta with
  | some (DisplayMeta.static s) => some s
  | some (DisplayMeta.callable f) =>
    match f sanitizedArgs with
    | some (PyVal.str s) => if s ≠ "" then some s else Option.none
    | _ => Option.none
  | _ => Option.none

/-- `if display: event["display"] = display` — the event field is present only
for a truthy (non-empty) display string. -/
def displayField : Option String → Option String
  | some s => if s = "" then Option.none else some s
  | _ => Option.none

/-- State recorded per call id in `self._tool_calls`. -/
structure ToolMeta where
  toolName : String
  display : Option String
  startedAt : Nat

/-- The `_tool_calls` mapping, keyed by call id. -/
abbrev TSCState := List (String × ToolMeta)

/-- Wire events emitted by the callback (timestamps omitted; the claims do not
constrain them). -/
inductive TEvent where
  | toolStart (callId toolName : String) (args : PyVal) (display : Option String)
  | toolEnd (callId toolName : String) (result : PyVal) (durationMs : Nat)
      (display : Option String)
  | toolError (callId toolName : String) (errMessage errKind : String) (durationMs : Nat)
      (display : Option String)

/-- Dict-style lookup in the call-id table. -/
def stateFind (st : TSCState) (callId : String) : Option ToolMeta :=
  match st with
  | [] => Option.none
  | kv :: rest => if kv.1 = callId then some kv.2 else stateFind rest callId

/-- Dict-style assignment `self._tool_calls[id] = meta` (replace or append). -/
def stateInsert (st : TSCState) (callId : String) (meta : ToolMeta) : TSCState :=
  match st with
  | [] => [(callId, meta)]
  | kv :: rest =>
    if kv.1 = callId then (callId, meta) :: rest else kv :: stateInsert rest callId meta

/-- Dict-style `pop(id, None)`: removal half (the lookup half is `stateFind`). -/
def stateErase (st : TSCState) (callId : String) : TSCState :=
  match st with
  | [] => []
  | kv :: rest => if kv.1 = callId then rest else kv :: stateErase rest callId

/-- Embeds the argument extraction of `on_tool_start`: take the `args`
sub-mapping when present and truthy, otherwise the flat kwargs without
`call_id`/`instance`. -/
def extractToolArgs (inputs : List (String × PyVal)) : PyVal :=
  let base := (kwFind inputs "args").getD (PyVal.dict [])
  if pyTruthy base then base
  else PyVal.dict (inputs.filter (fun kv => kv.1 ≠ "call_id" && kv.1 ≠ "instance"))

/-- The `args` payload placed on the `tool_start` event: sanitized extracted
args, wrapped as `{"value": ...}` when sanitization yields a non-mapping. -/
def sanitizedArgsOf (inputs : List (String × PyVal)) : PyVal :=
  let s := sanitize 4 50 2048 (extractToolArgs inputs)
  if isDictVal s then s else PyVal.dict [("value", s)]

/-- Embeds `ToolStreamingCallback.on_tool_start`.  `freshId` stands for the
`str(uuid.uuid4())` drawn when `call_id` is falsy; `startedAt` for the
monotonic-clock reading.  Returns the updated state and the emitted events. -/
def onToolStart (st : TSCState) (callId freshId : String) (inst : ToolInstance)
    (inputs : List (String × PyVal)) (startedAt : Nat) : TSCState × List TEvent :=
  if inst.name ∈ internalToolNames then (st, [])
  else
    let toolCallId := if callId = "" then freshId else callId
    let sanitizedArgs := sanitizedArgsOf inputs
    let display := toolDisplay inst sanitizedArgs
    let st' := stateInsert st toolCallId ⟨inst.name, display, startedAt⟩
    (st', [TEvent.toolStart toolCallId inst.name sanitizedArgs (displayField display)])

/-- Exception value handed to `on_tool_end` (`str(exception)` and the type
name). -/
structure ExcInfo where
  message : String
  kind : String

/-- Embeds `ToolStreamingCallback.on_tool_end`.  `endedAt` models the
monotonic-clock reading; an absent matching start emits nothing. -/
def onToolEnd (st : TSCState) (callId : String) (outputs : PyVal)
    (exc : Option ExcInfo) (endedAt : Nat) : TSCState × List TEvent :=
  match stateFind st callId with
  | Option.none => (st, [])
  | some meta =>
    let st' := stateErase st callId
    let durationMs := endedAt - meta.startedAt
    let toolName := if meta.toolName = "" then "unknown_tool" else meta.toolName
    match exc with
    | some e =>
      (st', [TEvent.toolError callId toolName (truncateStr e.message 1024) e.kind
        durationMs (displayField meta.display)])
    | Option.none =>
      (st', [TEvent.toolEnd callId toolName (sanitize 4 50 2048 outputs) durationMs
        (displayField meta.display)])

/-- One invocation of the callback: a start hook or an end hook. -/
inductive TAction where
  | startA (callId freshId : String) (inst : ToolInstance)
      (inputs : List (String × PyVal)) (t : Nat)
  | endA (callId : String) (outputs : PyVal) (exc : Option ExcInfo) (t : Nat)

/-- Dispatch one invocation against the callback state. -/
def stepTSC (st : TSCState) (a : TAction) : TSCState × List TEvent :=
  match a with
  | .startA callId freshId inst inputs t => onToolStart st callId freshId inst inputs t
  | .endA callId outputs exc t => onToolEnd st callId outputs exc t

/-- Run a whole invocation sequence, concatenating the emitted events. -/
def runTSC (st : TSCState) : List TAction → TSCState × List TEvent
  | [] => (st, [])
  | a :: rest =>
    let p := stepTSC st a
    let q := runTSC p.1 rest
    (q.1, p.2 ++ q.2)

/-- Count of `tool_start` events carrying call id `x`. -/
def startCount : List TEvent → String → Nat
  | [], _ => 0
  | TEvent.toolStart c _ _ _ :: rest, x => (if c = x then 1 else 0) + startCount rest x
  | _ :: rest, x => startCount rest x

/-- Count of `tool_end`/`tool_error` events carrying call id `x`. -/
def endCount : List TEvent → String → Nat
  | [], _ => 0
  | TEvent.toolEnd c _ _ _ _ :: rest, x => (if c = x then 1 else 0) + endCount rest x
  | TEvent.toolError c _ _ _ _ _ :: rest, x => (if c = x then 1 else 0) + endCount rest x
  | _ :: rest, x => endCount rest x

/-- `true` when the call-id table holds an entry for `x`. -/
def stateHas (st : TSCState) (x : String) : Bool :=
  (stateFind st x).isSome

/-- Number of table entries keyed by `x` (the table keeps keys unique, but the
lemmas below do not need that invariant). -/
def keyCount : TSCState → String → Nat
  | [], _ => 0
  | kv :: rest, x => (if kv.1 = x then 1 else 0) + keyCount rest x

lemma endCount_append :
    ∀ (l₁ l₂ : List TEvent) (x : String),
      endCount (l₁ ++ l₂) x = endCount l₁ x + endCount l₂ x
  | [], _, _ => by simp [endCount]
  | e :: rest, l₂, x => by
    cases e <;> simp [endCount, endCount_append rest l₂ x] <;> omega

lemma startCount_append :
    ∀ (l₁ l₂ : List TEvent) (x : String),
      startCount (l₁ ++ l₂) x = startCount l₁ x + startCount l₂ x
  | [], _, _ => by simp [startCount]
  | e :: rest, l₂, x => by
    cases e <;> simp [startCount, startCount_append rest l₂ x] <;> omega

lemma keyCount_stateInsert_le :
    ∀ (st : TSCState) (id : String) (meta : ToolMeta) (x : String),
      keyCount (stateInsert st id meta) x ≤ keyCount st x + (if id = x then 1 else 0)
  | [], id, meta, x => by simp [stateInsert, keyCount]
  | kv :: rest, id, meta, x => by
    by_cases h : kv.1 = id
    · simp only [stateInsert, if_pos h, keyCount, h]
      omega
    · simp only [stateInsert, if_neg h, keyCount]
      have := keyCount_stateInsert_le rest id meta x
      omega

lemma keyCount_stateErase_self :
    ∀ (st : TSCState) (c : String) (meta : ToolMeta),
      stateFind st c = some meta → keyCount (stateErase st c) c + 1 = keyCount st c
  | [], c, meta, h => by simp [stateFind] at h
  | kv :: rest, c, meta, h => by
    by_cases hk : kv.1 = c
    · simp only [stateErase, if_pos hk, keyCount, if_pos hk]
      omega
    · simp only [stateFind, if_neg hk] at h
      have := keyCount_stateErase_self rest c meta h
      simp only [stateErase, if_neg hk, keyCount]
      omega

lemma keyCount_stateErase_ne :
    ∀ (st : TSCState) (c x : String), x ≠ c →
      keyCount (stateErase st c) x = keyCount st x
  | [], _, _, _ => rfl
  | kv :: rest, c, x, h => by
    by_cases hk : kv.1 = c
    · have hkx : ¬ kv.1 = x := by rw [hk]; exact fun hcx => h hcx.symm
      simp only [stateErase, if_pos hk, keyCount, if_neg hkx]
      omega
    · simp only [stateErase, if_neg hk, keyCount]
      have := keyCount_stateErase_ne rest c x h
      omega

/-- Central accounting invariant of the tracker: along any invocation sequence,
the `tool_end`/`tool_error` events carrying call id `x` never outnumber the
`tool_start` events carrying `x` plus the `x`-entries already in the table. -/
lemma runTSC_endCount_le :
    ∀ (acts : List TAction) (st : TSCState) (x : String),
      endCount (runTSC st acts).2 x ≤ startCount (runTSC st acts).2 x + keyCount st x
  | [], st, x => by simp [runTSC, endCount, startCount]
  | TAction.startA c f inst inputs t :: rest, st, x => by
    by_cases hi : inst.name ∈ internalToolNames
    · have hstep : stepTSC st (TAction.startA c f inst inputs t) = (st, []) := by
        simp [stepTSC, onToolStart, hi]
      simp only [runTSC, hstep, List.nil_append]
      exact runTSC_endCount_le rest st x
    · have hstep : stepTSC st (TAction.startA c f inst inputs t) =
          (stateInsert st (if c = "" then f else c)
            ⟨inst.name, toolDisplay inst (sanitizedArgsOf inputs), t⟩,
            [TEvent.toolStart (if c = "" then f else c) inst.name (sanitizedArgsOf inputs)
              (displayField (toolDisplay inst (sanitizedArgsOf inputs)))]) := by
        simp [stepTSC, onToolStart, hi]
      have hIH := runTSC_endCount_le rest
        (stateInsert st (if c = "" then f else c)
          ⟨inst.name, toolDisplay inst (sanitizedArgsOf inputs), t⟩) x
      have hkc := keyCount_stateInsert_le st (if c = "" then f else c)
        ⟨inst.name, toolDisplay inst (sanitizedArgsOf inputs), t⟩ x
      simp only [runTSC, hstep, List.singleton_append, endCount, startCount]
      omega
  | TAction.endA c outputs exc t :: rest, st, x => by
    cases hfind : stateFind st c with
    | none =>
      have hstep : stepTSC st (TAction.endA c outputs exc t) = (st, []) := by
        simp [stepTSC, onToolEnd, hfind]
      simp only [runTSC, hstep, List.nil_append]
      exact runTSC_endCount_le rest st x
    | some meta =>
      have hIH := runTSC_endCount_le rest (stateErase st c) x
      have hkey : keyCount (stateErase st c) x + (if c = x then 1 else 0) ≤ keyCount st x := by
        by_cases hx : c = x
        · subst hx
          have h1 := keyCount_stateErase_self st c meta hfind
          simp only [if_pos trivial, eq_self_iff_true, if_true]
          omega
        · have h2 := keyCount_stateErase_ne st c x (fun hxc => hx hxc.symm)
          simp only [if_neg hx]
          omega
      cases exc with
      | none =>
        have hstep : stepTSC st (TAction.endA c outputs Option.none t) =
            (stateErase st c,
              [TEvent.toolEnd c (if meta.toolName = "" then "unknown_tool" else meta.toolName)
                (sanitize 4 50 2048 outputs) (t - meta.startedAt)
                (displayField meta.display)]) := by
          simp [stepTSC, onToolEnd, hfind]
        simp only [runTSC, hstep, List.singleton_append, endCount, startCount]
        omega
      | some e =>
        have hstep : stepTSC st (TAction.endA c outputs (some e) t) =
            (stateErase st c,
              [TEvent.toolError c (if meta.toolName = "" then "unknown_tool" else meta.toolName)
                (truncateStr e.message 1024) e.kind (t - meta.startedAt)
                (displayField meta.display)]) := by
          simp [stepTSC, onToolEnd, hfind]
        simp only [runTSC, hstep, List.singleton_append, endCount, startCount]
        omega

/-- C3: along any invocation sequence on one callback instance (starting from
its empty call table), `tool_end`/`tool_error` events with call id `x` never
outnumber `tool_start` events with `x` — so a `tool_start` whose id is used by
no other start is followed by at most one `tool_end`/`tool_error` with that
id; an invocation for an internal tool name emits no event and records no
state; and an `on_tool_end` whose call id has no recorded start emits
nothing. -/
theorem toolCallback_lifecycle :
    (∀ (acts : List TAction) (x : String),
      endCount (runTSC [] acts).2 x ≤ startCount (runTSC [] acts).2 x) ∧
    (∀ (acts : List TAction) (x : String),
      startCount (runTSC [] acts).2 x ≤ 1 → endCount (runTSC [] acts).2 x ≤ 1) ∧
    (∀ (st : TSCState) (c f : String) (inst : ToolInstance)
        (inputs : List (String × PyVal)) (t : Nat), inst.name ∈ internalToolNames →
      stepTSC st (TAction.startA c f inst inputs t) = (st, [])) ∧
    (∀ (st : TSCState) (c : String) (outputs : PyVal) (exc : Option ExcInfo) (t : Nat),
      stateFind st c = Option.none →
      stepTSC st (TAction.endA c outputs exc t) = (st, [])) := by
  refine ⟨?_, ?_, ?_, ?_⟩
  · intro acts x
    have := runTSC_endCount_le acts [] x
    simpa [keyCount] using this
  · intro acts x h1
    have := runTSC_endCount_le acts [] x
    simp only [keyCount] at this
    omega
  · intro st c f inst inputs t hi
    simp [stepTSC, onToolStart, hi]
  · intro st c outputs exc t hfind
    cases exc <;> simp [stepTSC, onToolEnd, hfind]

/-- C3 witness: a start hook for the internal `finish` pseudo-tool emits
nothing and leaves the table unchanged, and an end hook with an unrecorded call
id emits nothing. -/
theorem toolCallback_lifecycle_witness :
    (stepTSC [] (TAction.startA "c1" "f1" ⟨"finish", Option.none⟩ [] 0) = ([], [])) ∧
    (stepTSC [] (TAction.endA "c9" PyVal.none Option.none 3) = ([], [])) ∧
    (startCount (runTSC [] [TAction.startA "c1" "f1" ⟨"finish", Option.none⟩ [] 0]).2 "c1" ≤ 1 ∧
      endCount (runTSC [] [TAction.startA "c1" "f1" ⟨"finish", Option.none⟩ [] 0]).2 "c1" ≤ 1) :=
  ⟨toolCallback_lifecycle.2.2.1 [] "c1" "f1" ⟨"finish", Option.none⟩ [] 0 (by decide),
   toolCallback_lifecycle.2.2.2 [] "c9" PyVal.none Option.none 3 rfl,
   by decide,
   toolCallback_lifecycle.2.1 [TAction.startA "c1" "f1" ⟨"finish", Option.none⟩ [] 0] "c1"
     (by decide)⟩

/-- `true` when the `args` payload of a `tool_start` event is a mapping (any
other event passes vacuously). -/
def eventArgsAreDict : TEvent → Bool
  | TEvent.toolStart _ _ args _ => isDictVal args
  | _ => true

/-- C10: every `tool_start` event emitted by `on_tool_start` carries a mapping
in its `args` field; when sanitizing the extracted arguments yields a
non-mapping value, that value is wrapped as `{"value": ...}`. -/
theorem toolStart_args_always_mapping :
    (∀ (st : TSCState) (c f : String) (inst : ToolInstance)
        (inputs : List (String × PyVal)) (t : Nat) (ev : TEvent),
      ev ∈ (onToolStart st c f inst inputs t).2 → eventArgsAreDict ev = true) ∧
    (∀ inputs : List (String × PyVal),
      isDictVal (sanitize 4 50 2048 (extractToolArgs inputs)) = false →
      sanitizedArgsOf inputs =
        PyVal.dict [("value", sanitize 4 50 2048 (extractToolArgs inputs))]) := by
  constructor
  · intro st c f inst inputs t ev hev
    by_cases hi : inst.name ∈ internalToolNames
    · simp [onToolStart, hi] at hev
    · simp only [onToolStart, if_neg hi, List.mem_singleton] at hev
      subst hev
      show isDictVal (sanitizedArgsOf inputs) = true
      by_cases hd : isDictVal (sanitize 4 50 2048 (extractToolArgs inputs)) = true
      · simpa [sanitizedArgsOf, hd] using hd
      · simp only [sanitizedArgsOf, hd, if_false]
        rfl
  · intro inputs hnd
    simp [sanitizedArgsOf, hnd]

/-- C10 witness: a flat non-mapping `args` value is wrapped, and the emitted
event carries a mapping. -/
theorem toolStart_args_always_mapping_witness :
    (isDictVal (sanitize 4 50 2048 (extractToolArgs [("args", PyVal.str "q")])) = false ∧
      sanitizedArgsOf [("args", PyVal.str "q")] =
        PyVal.dict [("value", sanitize 4 50 2048 (extractToolArgs [("args", PyVal.str "q")]))]) ∧
    eventArgsAreDict
      (TEvent.toolStart "c1" "t" (sanitizedArgsOf [("args", PyVal.str "q")]) Option.none) = true :=
  ⟨⟨rfl, toolStart_args_always_mapping.2 [("args", PyVal.str "q")] rfl⟩,
   toolStart_args_always_mapping.1 [] "c1" "f1" ⟨"t", Option.none⟩ [("args", PyVal.str "q")] 0
     (TEvent.toolStart "c1" "t" (sanitizedArgsOf [("args", PyVal.str "q")]) Option.none)
     (by simp [onToolStart, internalToolNames, toolDisplay, displayField])⟩

/-! ## Streaming worker and consuming generator (`/agent/stream`)

The worker thread (`run_worker` in `agent.py`) and the draining loop of
`stream_generator` communicate through a FIFO queue; the model composes them
sequentially, which preserves the per-request event order (single producer,
single consumer, no reordering).  Heartbeats are SSE comments, not data
events, and are not modelled. -/

/-- One thing a `run_streaming` attempt does before returning or raising:
yield a text chunk (appended to `response_chunks` and emitted as a `token`
event) or fire a tool-callback event. -/
inductive StreamItem where
  | chunk (s : String)
  | toolEv (e : TEvent)

/-- Message/exception info carried by a raised exception. -/
structure ErrInfo where
  message : String
  kind : String

/-- Behaviour of one `run_streaming` attempt: the items it produces, and
whether it ends by raising (`failure = some e`) or returning normally. -/
structure AttemptSpec where
  items : List StreamItem
  failure : Option ErrInfo

/-- Behaviour of the blocking `run` fallback: tool-callback events it fires
and the final `response` text, or the exception it raises. -/
inductive BlockingOutcome where
  | ok (toolEvents : List TEvent) (response : String)
  | raised (e : ErrInfo)

/-- Events the worker pushes onto the shared queue.  The `internal*`
constructors are the `_internal_final_response` / `_internal_worker_error` /
`_internal_worker_done` control messages. -/
inductive WEvent where
  | token (content : String)
  | warning (code message : String)
  | tool (e : TEvent)
  | internalFinal (content : String)
  | internalError (message kind : String)
  | internalDone

/-- Queue events produced while an attempt streams. -/
def itemWEvents (items : List StreamItem) : List WEvent :=
  items.map fun it =>
    match it with
    | .chunk s => WEvent.token s
    | .toolEv e => WEvent.tool e

/-- The chunks an attempt appends to `response_chunks`. -/
def itemChunks (items : List StreamItem) : List String :=
  items.filterMap fun it =>
    match it with
    | .chunk s => some s
    | _ => Option.none

/-- The `tool_fallback` warning event emitted before retrying without tools. -/
def toolFallbackWarning : WEvent :=
  WEvent.warning "tool_fallback"
    "Tool-enabled streaming encountered an issue. Continuing without tools for this response."

/-- Tail of the worker run once streaming attempts are over: the zero-token
check, the non-streaming fallback, the final-response signal and the
unconditional done signal (`finally`). -/
def finishPhase (fullResponse : String) (blocking : BlockingOutcome) : List WEvent :=
  if fullResponse = "" then
    match blocking with
    | .raised e => [WEvent.internalError e.message e.kind, WEvent.internalDone]
    | .ok tevs resp =>
      tevs.map WEvent.tool ++ [WEvent.token resp, WEvent.internalFinal resp, WEvent.internalDone]
  else [WEvent.internalFinal fullResponse, WEvent.internalDone]

/-- Embeds `run_worker`: the tool-enabled streaming attempt, the tools-disabled
retry after a failure (preceded by the `tool_fallback` warning), the
non-streaming fallback when no tokens were produced, the internal error signal
for an exception escaping all of it, and the `finally` done signal. -/
def runWorker (toolAtt fbAtt : AttemptSpec) (blocking : BlockingOutcome) : List WEvent :=
  match toolAtt.failure with
  | Option.none =>
    itemWEvents toolAtt.items ++ finishPhase (String.join (itemChunks toolAtt.items)) blocking
  | some _ =>
    match fbAtt.failure with
    | some e2 =>
      itemWEvents toolAtt.items ++ (toolFallbackWarning ::
        (itemWEvents fbAtt.items ++
          [WEvent.internalError e2.message e2.kind, WEvent.internalDone]))
    | Option.none =>
      itemWEvents toolAtt.items ++ (toolFallbackWarning ::
        (itemWEvents fbAtt.items ++ finishPhase
          (String.join (itemChunks toolAtt.items ++ itemChunks fbAtt.items)) blocking))

/-- Data events the generator yields to the client (SSE `data:` lines). -/
inductive CEvent where
  | start
  | token (content : String)
  | warning (code message : String)
  | tool (e : TEvent)
  | conversation
  | done
  | error (message : String)

/-- The fixed user-safe error message (internal detail is never forwarded). -/
def safeErrorMessage : String :=
  "I apologize, but I encountered an error processing your request. Please try again or contact support if the issue persists."

/-- Result of the draining loop: stopped on a worker error (after yielding the
`error` event), finished normally on the done signal carrying the recorded
final response, or ran out of queue input without a done signal (`hung` —
shown below to be unreachable for worker-produced queues). -/
inductive DrainOutcome where
  | errored
  | finished (fullResponse : Option String)
  | hung

/-- Embeds the queue-draining loop of `stream_generator`: forwards
`token`/`warning`/`tool_*` events, records `_internal_final_response` and keeps
draining, yields a single `error` and stops on `_internal_worker_error`, and
breaks out of the loop on `_internal_worker_done`. -/
def drainLoop : List WEvent → Option String → List CEvent × DrainOutcome
  | [], _ => ([], DrainOutcome.hung)
  | WEvent.internalFinal c :: rest, _ => drainLoop rest (some c)
  | WEvent.internalError _ _ :: _, _ => ([CEvent.error safeErrorMessage], DrainOutcome.errored)
  | WEvent.internalDone :: _, fr => ([], DrainOutcome.finished fr)
  | WEvent.token c :: rest, fr =>
    let p := drainLoop rest fr
    (CEvent.token c :: p.1, p.2)
  | WEvent.warning c m :: rest, fr =>
    let p := drainLoop rest fr
    (CEvent.warning c m :: p.1, p.2)
  | WEvent.tool e :: rest, fr =>
    let p := drainLoop rest fr
    (CEvent.tool e :: p.1, p.2)

/-- The `conversation` event is emitted exactly when a truthy (non-empty)
final response was recorded and the conversation row still exists
(`persistOk`). -/
def convEvents (fr : Option String) (persistOk : Bool) : List CEvent :=
  match fr with
  | some s => if s ≠ "" && persistOk then [CEvent.conversation] else []
  | _ => []

/-- Embeds `stream_generator` given the worker's queue contents: the `start`
event first, the drained events, then — on the normal path — the
`conversation` event when a non-empty final response was recorded and the
conversation row still exists (`persistOk`), and the terminal `done`; on the
error path the loop already ended with the single `error` event. -/
def streamGenerator (w : List WEvent) (persistOk : Bool) : List CEvent :=
  let p := drainLoop w Option.none
  CEvent.start ::
    (match p.2 with
    | DrainOutcome.errored => p.1
    | DrainOutcome.hung => p.1
    | DrainOutcome.finished fr => p.1 ++ convEvents fr persistOk ++ [CEvent.done])

/-- Client events an attempt's streamed items are forwarded as. -/
def forwardItems (items : List StreamItem) : List CEvent :=
  items.map fun it =>
    match it with
    | .chunk s => CEvent.token s
    | .toolEv e => CEvent.tool e

/-- `true` for the two terminal client events `done` and `error`. -/
def isTerminalC : CEvent → Bool
  | CEvent.done => true
  | CEvent.error _ => true
  | _ => false

/-- Count of `start` events. -/
def cStartCount : List CEvent → Nat
  | [] => 0
  | CEvent.start :: r => 1 + cStartCount r
  | _ :: r => cStartCount r

/-- Count of terminal (`done`/`error`) events. -/
def cTerminalCount : List CEvent → Nat
  | [] => 0
  | CEvent.done :: r => 1 + cTerminalCount r
  | CEvent.error _ :: r => 1 + cTerminalCount r
  | _ :: r => cTerminalCount r

/-- Count of `warning` events. -/
def cWarnCount : List CEvent → Nat
  | [] => 0
  | CEvent.warning _ _ :: r => 1 + cWarnCount r
  | _ :: r => cWarnCount r

/-- Count of `error` events. -/
def cErrorCount : List CEvent → Nat
  | [] => 0
  | CEvent.error _ :: r => 1 + cErrorCount r
  | _ :: r => cErrorCount r

/-- Count of `warning` messages on the worker queue. -/
def wWarnCount : List WEvent → Nat
  | [] => 0
  | WEvent.warning _ _ :: r => 1 + wWarnCount r
  | _ :: r => wWarnCount r

lemma cStartCount_append :
    ∀ l₁ l₂, cStartCount (l₁ ++ l₂) = cStartCount l₁ + cStartCount l₂
  | [], _ => by simp [cStartCount]
  | e :: r, l₂ => by
    cases e <;> simp [cStartCount, cStartCount_append r l₂] <;> omega

lemma cTerminalCount_append :
    ∀ l₁ l₂, cTerminalCount (l₁ ++ l₂) = cTerminalCount l₁ + cTerminalCount l₂
  | [], _ => by simp [cTerminalCount]
  | e :: r, l₂ => by
    cases e <;> simp [cTerminalCount, cTerminalCount_append r l₂] <;> omega

lemma cWarnCount_append :
    ∀ l₁ l₂, cWarnCount (l₁ ++ l₂) = cWarnCount l₁ + cWarnCount l₂
  | [], _ => by simp [cWarnCount]
  | e :: r, l₂ => by
    cases e <;> simp [cWarnCount, cWarnCount_append r l₂] <;> omega

lemma cErrorCount_append :
    ∀ l₁ l₂, cErrorCount (l₁ ++ l₂) = cErrorCount l₁ + cErrorCount l₂
  | [], _ => by simp [cErrorCount]
  | e :: r, l₂ => by
    cases e <;> simp [cErrorCount, cErrorCount_append r l₂] <;> omega

lemma wWarnCount_append :
    ∀ l₁ l₂, wWarnCount (l₁ ++ l₂) = wWarnCount l₁ + wWarnCount l₂
  | [], _ => by simp [wWarnCount]
  | e :: r, l₂ => by
    cases e <;> simp [wWarnCount, wWarnCount_append r l₂] <;> omega

lemma cErrorCount_le_cTerminalCount :
    ∀ l, cErrorCount l ≤ cTerminalCount l
  | [] => Nat.le_refl 0
  | e :: r => by
    cases e <;> simp [cErrorCount, cTerminalCount] <;>
      exact Nat.le_trans (cErrorCount_le_cTerminalCount r) (by omega)

lemma counts_forwardItems :
    ∀ items, cStartCount (forwardItems items) = 0 ∧ cTerminalCount (forwardItems items) = 0 ∧
      cWarnCount (forwardItems items) = 0
  | [] => by simp [forwardItems, cStartCount, cTerminalCount, cWarnCount]
  | it :: items => by
    have ih := counts_forwardItems items
    cases it <;>
      simp [forwardItems, cStartCount, cTerminalCount, cWarnCount] at * <;> exact ih

lemma counts_toolMap :
    ∀ tevs : List TEvent, cStartCount (tevs.map CEvent.tool) = 0 ∧
      cTerminalCount (tevs.map CEvent.tool) = 0 ∧ cWarnCount (tevs.map CEvent.tool) = 0
  | [] => by simp [cStartCount, cTerminalCount, cWarnCount]
  | e :: tevs => by
    have ih := counts_toolMap tevs
    simp [cStartCount, cTerminalCount, cWarnCount] at *
    exact ih

lemma wWarnCount_itemWEvents :
    ∀ items, wWarnCount (itemWEvents items) = 0
  | [] => rfl
  | it :: items => by
    cases it <;> simp [itemWEvents, wWarnCount] at * <;>
      exact wWarnCount_itemWEvents items

lemma wWarnCount_finishPhase (full : String) (blocking : BlockingOutcome) :
    wWarnCount (finishPhase full blocking) = 0 := by
  unfold finishPhase
  split
  · cases blocking with
    | raised e => rfl
    | ok tevs resp =>
      rw [wWarnCount_append]
      have hz : ∀ tevs : List TEvent, wWarnCount (tevs.map WEvent.tool) = 0 := by
        intro l
        induction l with
        | nil => rfl
        | cons e r ih => simpa [wWarnCount] using ih
      simp [hz, wWarnCount]
  · rfl

lemma drainLoop_items_append :
    ∀ (items : List StreamItem) (rest : List WEvent) (fr : Option String),
      drainLoop (itemWEvents items ++ rest) fr =
        (forwardItems items ++ (drainLoop rest fr).1, (drainLoop rest fr).2)
  | [], rest, fr => by simp [itemWEvents, forwardItems]
  | StreamItem.chunk s :: items, rest, fr => by
    have ih := drainLoop_items_append items rest fr
    calc drainLoop (itemWEvents (StreamItem.chunk s :: items) ++ rest) fr
        = (CEvent.token s :: (drainLoop (itemWEvents items ++ rest) fr).1,
            (drainLoop (itemWEvents items ++ rest) fr).2) := rfl
      _ = (forwardItems (StreamItem.chunk s :: items) ++ (drainLoop rest fr).1,
            (drainLoop rest fr).2) := by rw [ih]; rfl
  | StreamItem.toolEv e :: items, rest, fr => by
    have ih := drainLoop_items_append items rest fr
    calc drainLoop (itemWEvents (StreamItem.toolEv e :: items) ++ rest) fr
        = (CEvent.tool e :: (drainLoop (itemWEvents items ++ rest) fr).1,
            (drainLoop (itemWEvents items ++ rest) fr).2) := rfl
      _ = (forwardItems (StreamItem.toolEv e :: items) ++ (drainLoop rest fr).1,
            (drainLoop rest fr).2) := by rw [ih]; rfl

lemma drainLoop_tools_append :
    ∀ (tevs : List TEvent) (rest : List WEvent) (fr : Option String),
      drainLoop (tevs.map WEvent.tool ++ rest) fr =
        (tevs.map CEvent.tool ++ (drainLoop rest fr).1, (drainLoop rest fr).2)
  | [], rest, fr => by simp
  | e :: tevs, rest, fr => by
    have ih := drainLoop_tools_append tevs rest fr
    calc drainLoop ((e :: tevs).map WEvent.tool ++ rest) fr
        = (CEvent.tool e :: (drainLoop (tevs.map WEvent.tool ++ rest) fr).1,
            (drainLoop (tevs.map WEvent.tool ++ rest) fr).2) := rfl
      _ = ((e :: tevs).map CEvent.tool ++ (drainLoop rest fr).1,
            (drainLoop rest fr).2) := by rw [ih]; rfl

lemma drainLoop_warning_cons (c m : String) (rest : List WEvent) (fr : Option String) :
    drainLoop (WEvent.warning c m :: rest) fr =
      (CEvent.warning c m :: (drainLoop rest fr).1, (drainLoop rest fr).2) := rfl

/-- Client-side image of the `tool_fallback` warning. -/
def toolFallbackWarningC : CEvent :=
  CEvent.warning "tool_fallback"
    "Tool-enabled streaming encountered an issue. Continuing without tools for this response."

lemma drainLoop_fallback_cons (rest : List WEvent) (fr : Option String) :
    drainLoop (toolFallbackWarning :: rest) fr =
      (toolFallbackWarningC :: (drainLoop rest fr).1, (drainLoop rest fr).2) := rfl

lemma drainLoop_finish_nonempty (full : String) (blocking : BlockingOutcome)
    (fr : Option String) (h : full ≠ "") :
    drainLoop (finishPhase full blocking) fr = ([], DrainOutcome.finished (some full)) := by
  simp [finishPhase, h, drainLoop]

lemma drainLoop_finish_empty_ok (tevs : List TEvent) (resp : String) (fr : Option String) :
    drainLoop (finishPhase "" (BlockingOutcome.ok tevs resp)) fr =
      (tevs.map CEvent.tool ++ [CEvent.token resp], DrainOutcome.finished (some resp)) := by
  show drainLoop (tevs.map WEvent.tool ++
    [WEvent.token resp, WEvent.internalFinal resp, WEvent.internalDone]) fr = _
  rw [drainLoop_tools_append]
  simp [drainLoop]

lemma drainLoop_finish_empty_raised (e : ErrInfo) (fr : Option String) :
    drainLoop (finishPhase "" (BlockingOutcome.raised e)) fr =
      ([CEvent.error safeErrorMessage], DrainOutcome.errored) := rfl

lemma drainLoop_start_free :
    ∀ (w : List WEvent) (fr : Option String), cStartCount (drainLoop w fr).1 = 0
  | [], _ => rfl
  | WEvent.internalFinal c :: rest, _ => drainLoop_start_free rest (some c)
  | WEvent.internalError _ _ :: _, _ => rfl
  | WEvent.internalDone :: _, _ => rfl
  | WEvent.token c :: rest, fr => by
    simpa [drainLoop, cStartCount] using drainLoop_start_free rest fr
  | WEvent.warning c m :: rest, fr => by
    simpa [drainLoop, cStartCount] using drainLoop_start_free rest fr
  | WEvent.tool e :: rest, fr => by
    simpa [drainLoop, cStartCount] using drainLoop_start_free rest fr

lemma drainLoop_errored_shape :
    ∀ (w : List WEvent) (fr : Option String), (drainLoop w fr).2 = DrainOutcome.errored →
      ∃ mid, (drainLoop w fr).1 = mid ++ [CEvent.error safeErrorMessage] ∧
        cTerminalCount mid = 0
  | [], _, h => by simp [drainLoop] at h
  | WEvent.internalFinal c :: rest, _, h => drainLoop_errored_shape rest (some c) h
  | WEvent.internalError _ _ :: _, _, _ => ⟨[], rfl, rfl⟩
  | WEvent.internalDone :: _, fr, h => by simp [drainLoop] at h
  | WEvent.token c :: rest, fr, h => by
    rcases drainLoop_errored_shape rest fr (by simpa [drainLoop] using h) with ⟨mid, h1, h2⟩
    exact ⟨CEvent.token c :: mid, by simp [drainLoop, h1], by simpa [cTerminalCount] using h2⟩
  | WEvent.warning c m :: rest, fr, h => by
    rcases drainLoop_errored_shape rest fr (by simpa [drainLoop] using h) with ⟨mid, h1, h2⟩
    exact ⟨CEvent.warning c m :: mid, by simp [drainLoop, h1],
      by simpa [cTerminalCount] using h2⟩
  | WEvent.tool e :: rest, fr, h => by
    rcases drainLoop_errored_shape rest fr (by simpa [drainLoop] using h) with ⟨mid, h1, h2⟩
    exact ⟨CEvent.tool e :: mid, by simp [drainLoop, h1], by simpa [cTerminalCount] using h2⟩

lemma drainLoop_not_errored_terminal_free :
    ∀ (w : List WEvent) (fr : Option String), (drainLoop w fr).2 ≠ DrainOutcome.errored →
      cTerminalCount (drainLoop w fr).1 = 0
  | [], _, _ => rfl
  | WEvent.internalFinal c :: rest, _, h => drainLoop_not_errored_terminal_free rest (some c) h
  | WEvent.internalError _ _ :: _, _, h => absurd rfl h
  | WEvent.internalDone :: _, _, _ => rfl
  | WEvent.token c :: rest, fr, h => by
    simpa [drainLoop, cTerminalCount] using
      drainLoop_not_errored_terminal_free rest fr (by simpa [drainLoop] using h)
  | WEvent.warning c m :: rest, fr, h => by
    simpa [drainLoop, cTerminalCount] using
      drainLoop_not_errored_terminal_free rest fr (by simpa [drainLoop] using h)
  | WEvent.tool e :: rest, fr, h => by
    simpa [drainLoop, cTerminalCount] using
      drainLoop_not_errored_terminal_free rest fr (by simpa [drainLoop] using h)

/-- The worker's `try/finally` guarantees a control signal reaches the queue:
draining a worker-produced queue never runs dry without a terminal signal. -/
lemma runWorker_not_hung (toolAtt fbAtt : AttemptSpec) (blocking : BlockingOutcome) :
    (drainLoop (runWorker toolAtt fbAtt blocking) Option.none).2 ≠ DrainOutcome.hung := by
  have hfin : ∀ (full : String) (fr : Option String),
      (drainLoop (finishPhase full blocking) fr).2 ≠ DrainOutcome.hung := by
    intro full fr
    by_cases hfull : full = ""
    · subst hfull
      cases blocking with
      | ok tevs resp => rw [drainLoop_finish_empty_ok]; simp
      | raised e => rw [drainLoop_finish_empty_raised]; simp
    · rw [drainLoop_finish_nonempty _ _ _ hfull]; simp
  cases htf : toolAtt.failure with
  | none =>
    simp only [runWorker, htf]
    rw [drainLoop_items_append]
    exact hfin _ _
  | some e1 =>
    cases hff : fbAtt.failure with
    | some e2 =>
      simp only [runWorker, htf, hff]
      rw [drainLoop_items_append, drainLoop_fallback_cons]
      rw [drainLoop_items_append]
      simp [drainLoop]
    | none =>
      simp only [runWorker, htf, hff]
      rw [drainLoop_items_append, drainLoop_fallback_cons]
      rw [drainLoop_items_append]
      exact hfin _ _

lemma counts_convEvents (fr : Option String) (persistOk : Bool) :
    cStartCount (convEvents fr persistOk) = 0 ∧
      cTerminalCount (convEvents fr persistOk) = 0 ∧
      cWarnCount (convEvents fr persistOk) = 0 ∧
      cErrorCount (convEvents fr persistOk) = 0 := by
  cases fr with
  | none => simp [convEvents, cStartCount, cTerminalCount, cWarnCount, cErrorCount]
  | some s =>
    simp only [convEvents]
    split <;> simp [cStartCount, cTerminalCount, cWarnCount, cErrorCount]

/-- C1: for every worker behaviour and persistence outcome, the data-event
sequence the streaming generator yields starts with the single `start` event
(which therefore precedes every `token`, `warning` and `tool_*` event),
contains exactly one terminal (`done`/`error`) event — never both — and that
terminal event is the last event of the sequence. -/
theorem stream_terminal_unique (toolAtt fbAtt : AttemptSpec) (blocking : BlockingOutcome)
    (persistOk : Bool) :
    (streamGenerator (runWorker toolAtt fbAtt blocking) persistOk).head? =
        some CEvent.start ∧
    cStartCount (streamGenerator (runWorker toolAtt fbAtt blocking) persistOk) = 1 ∧
    cTerminalCount (streamGenerator (runWorker toolAtt fbAtt blocking) persistOk) = 1 ∧
    ∃ t, (streamGenerator (runWorker toolAtt fbAtt blocking) persistOk).getLast? = some t ∧
      isTerminalC t = true := by
  have hstart := drainLoop_start_free (runWorker toolAtt fbAtt blocking) Option.none
  cases hout : (drainLoop (runWorker toolAtt fbAtt blocking) Option.none).2 with
  | errored =>
    rcases drainLoop_errored_shape (runWorker toolAtt fbAtt blocking) Option.none hout with
      ⟨mid, h1, h2⟩
    have hevs : streamGenerator (runWorker toolAtt fbAtt blocking) persistOk =
        CEvent.start :: (mid ++ [CEvent.error safeErrorMessage]) := by
      simp only [streamGenerator, hout, h1]
    have hmidStart : cStartCount mid = 0 := by
      rw [h1, cStartCount_append] at hstart
      omega
    refine ⟨by rw [hevs]; rfl, ?_, ?_, ?_⟩
    · rw [hevs]
      show 1 + cStartCount (mid ++ [CEvent.error safeErrorMessage]) = 1
      rw [cStartCount_append, hmidStart]
      rfl
    · rw [hevs]
      show cTerminalCount (mid ++ [CEvent.error safeErrorMessage]) = 1
      rw [cTerminalCount_append, h2]
      rfl
    · refine ⟨CEvent.error safeErrorMessage, ?_, rfl⟩
      rw [hevs, show CEvent.start :: (mid ++ [CEvent.error safeErrorMessage]) =
        (CEvent.start :: mid) ++ [CEvent.error safeErrorMessage] from rfl]
      exact List.getLast?_concat _
  | finished fr =>
    have hterm := drainLoop_not_errored_terminal_free (runWorker toolAtt fbAtt blocking)
      Option.none (by simp [hout])
    have hconv := counts_convEvents fr persistOk
    have hevs : streamGenerator (runWorker toolAtt fbAtt blocking) persistOk =
        CEvent.start ::
          ((drainLoop (runWorker toolAtt fbAtt blocking) Option.none).1 ++
            convEvents fr persistOk ++ [CEvent.done]) := by
      simp only [streamGenerator, hout]
    refine ⟨by rw [hevs]; rfl, ?_, ?_, ?_⟩
    · rw [hevs]
      show 1 + cStartCount ((drainLoop (runWorker toolAtt fbAtt blocking) Option.none).1 ++
        convEvents fr persistOk ++ [CEvent.done]) = 1
      rw [cStartCount_append, cStartCount_append, hstart, hconv.1]
      rfl
    · rw [hevs]
      show cTerminalCount ((drainLoop (runWorker toolAtt fbAtt blocking) Option.none).1 ++
        convEvents fr persistOk ++ [CEvent.done]) = 1
      rw [cTerminalCount_append, cTerminalCount_append, hterm, hconv.2.1]
      rfl
    · refine ⟨CEvent.done, ?_, rfl⟩
      rw [hevs, show CEvent.start ::
        ((drainLoop (runWorker toolAtt fbAtt blocking) Option.none).1 ++
          convEvents fr persistOk ++ [CEvent.done]) =
        (CEvent.start ::
          ((drainLoop (runWorker toolAtt fbAtt blocking) Option.none).1 ++
            convEvents fr persistOk)) ++ [CEvent.done] from by simp]
      exact List.getLast?_concat _
  | hung => exact absurd hout (runWorker_not_hung toolAtt fbAtt blocking)

/-- C6: whenever the tool-enabled streaming attempt raises, the worker queue
carries — after the first attempt's events — exactly one `warning` event (the
`tool_fallback` one) followed by the tools-disabled retry's events, and no
other warning anywhere; when the retry succeeds and produced text, the client
sees no `error` event (the first exception is never surfaced). -/
theorem tool_fallback_retry (toolAtt fbAtt : AttemptSpec) (blocking : BlockingOutcome)
    (e : ErrInfo) (hfail : toolAtt.failure = some e) :
    (∃ tail, runWorker toolAtt fbAtt blocking =
        itemWEvents toolAtt.items ++
          (toolFallbackWarning :: (itemWEvents fbAtt.items ++ tail)) ∧
      wWarnCount tail = 0) ∧
    wWarnCount (runWorker toolAtt fbAtt blocking) = 1 ∧
    (fbAtt.failure = Option.none →
      String.join (itemChunks toolAtt.items ++ itemChunks fbAtt.items) ≠ "" →
      ∀ persistOk,
        cErrorCount (streamGenerator (runWorker toolAtt fbAtt blocking) persistOk) = 0) := by
  cases hff : fbAtt.failure with
  | some e2 =>
    have hw : runWorker toolAtt fbAtt blocking =
        itemWEvents toolAtt.items ++ (toolFallbackWarning ::
          (itemWEvents fbAtt.items ++
            [WEvent.internalError e2.message e2.kind, WEvent.internalDone])) := by
      simp only [runWorker, hfail, hff]
    refine ⟨⟨[WEvent.internalError e2.message e2.kind, WEvent.internalDone], hw, rfl⟩, ?_, ?_⟩
    · rw [hw, wWarnCount_append, wWarnCount_itemWEvents]
      show 0 + (1 + wWarnCount (itemWEvents fbAtt.items ++ _)) = 1
      rw [wWarnCount_append, wWarnCount_itemWEvents]
      rfl
    · simp [hff]
  | none =>
    have hw : runWorker toolAtt fbAtt blocking =
        itemWEvents toolAtt.items ++ (toolFallbackWarning ::
          (itemWEvents fbAtt.items ++ finishPhase
            (String.join (itemChunks toolAtt.items ++ itemChunks fbAtt.items)) blocking)) := by
      simp only [runWorker, hfail, hff]
    refine ⟨⟨finishPhase
        (String.join (itemChunks toolAtt.items ++ itemChunks fbAtt.items)) blocking, hw,
        wWarnCount_finishPhase _ _⟩, ?_, ?_⟩
    · rw [hw, wWarnCount_append, wWarnCount_itemWEvents]
      show 0 + (1 + wWarnCount (itemWEvents fbAtt.items ++ _)) = 1
      rw [wWarnCount_append, wWarnCount_itemWEvents, wWarnCount_finishPhase]
    · intro _ hne persistOk
      have hdrain : drainLoop (runWorker toolAtt fbAtt blocking) Option.none =
          (forwardItems toolAtt.items ++ (toolFallbackWarningC ::
            (forwardItems fbAtt.items ++ [])),
            DrainOutcome.finished
              (some (String.join (itemChunks toolAtt.items ++ itemChunks fbAtt.items)))) := by
        rw [hw, drainLoop_items_append, drainLoop_fallback_cons, drainLoop_items_append,
          drainLoop_finish_nonempty _ _ _ hne]
      have hevs : streamGenerator (runWorker toolAtt fbAtt blocking) persistOk =
          CEvent.start ::
            ((forwardItems toolAtt.items ++ (toolFallbackWarningC ::
              (forwardItems fbAtt.items ++ []))) ++
              convEvents
                (some (String.join (itemChunks toolAtt.items ++ itemChunks fbAtt.items)))
                persistOk ++ [CEvent.done]) := by
        simp only [streamGenerator, hdrain]
      rw [hevs]
      have h1 : cErrorCount (forwardItems toolAtt.items) = 0 :=
        Nat.le_antisymm
          (Nat.le_trans (cErrorCount_le_cTerminalCount _)
            (Nat.le_of_eq (counts_forwardItems toolAtt.items).2.1)) (Nat.zero_le _)
      have h2 : cErrorCount (forwardItems fbAtt.items) = 0 :=
        Nat.le_antisymm
          (Nat.le_trans (cErrorCount_le_cTerminalCount _)
            (Nat.le_of_eq (counts_forwardItems fbAtt.items).2.1)) (Nat.zero_le _)
      have h3 := (counts_convEvents
        (some (String.join (itemChunks toolAtt.items ++ itemChunks fbAtt.items)))
        persistOk).2.2.2
      simp only [cErrorCount, cErrorCount_append, toolFallbackWarningC, List.append_nil]
      omega

/-- C6 witness: a failing tool-enabled attempt followed by a successful
tools-disabled retry yields exactly one warning on the queue and no client
`error` event. -/
theorem tool_fallback_retry_witness :
    wWarnCount (runWorker ⟨[], some ⟨"boom", "ValueError"⟩⟩
      ⟨[StreamItem.chunk "hi"], Option.none⟩ (BlockingOutcome.ok [] "x")) = 1 ∧
    cErrorCount (streamGenerator (runWorker ⟨[], some ⟨"boom", "ValueError"⟩⟩
      ⟨[StreamItem.chunk "hi"], Option.none⟩ (BlockingOutcome.ok [] "x")) true) = 0 :=
  ⟨(tool_fallback_retry ⟨[], some ⟨"boom", "ValueError"⟩⟩
      ⟨[StreamItem.chunk "hi"], Option.none⟩ (BlockingOutcome.ok [] "x")
      ⟨"boom", "ValueError"⟩ rfl).2.1,
   (tool_fallback_retry ⟨[], some ⟨"boom", "ValueError"⟩⟩
      ⟨[StreamItem.chunk "hi"], Option.none⟩ (BlockingOutcome.ok [] "x")
      ⟨"boom", "ValueError"⟩ rfl).2.2 rfl (by decide) true⟩

/-- C7: if the (successful) streaming attempt produced no text, the worker runs
the blocking fallback; the client then sees exactly one extra `token` event —
carrying the full non-streaming response — after the streamed events and before
the terminal `done`, with no `warning` anywhere, and the `conversation` event
precedes `done` exactly when the fallback response is non-empty and the
conversation row still exists. -/
theorem zero_token_fallback (toolAtt fbAtt : AttemptSpec) (tevs : List TEvent)
    (resp : String) (persistOk : Bool) (hok : toolAtt.failure = Option.none)
    (hzero : String.join (itemChunks toolAtt.items) = "") :
    streamGenerator (runWorker toolAtt fbAtt (BlockingOutcome.ok tevs resp)) persistOk =
      CEvent.start ::
        ((forwardItems toolAtt.items ++ (tevs.map CEvent.tool ++ [CEvent.token resp])) ++
          convEvents (some resp) persistOk ++ [CEvent.done]) ∧
    cWarnCount
      (streamGenerator (runWorker toolAtt fbAtt (BlockingOutcome.ok tevs resp)) persistOk) = 0 ∧
    (resp ≠ "" → persistOk = true →
      convEvents (some resp) persistOk = [CEvent.conversation]) := by
  have hw : runWorker toolAtt fbAtt (BlockingOutcome.ok tevs resp) =
      itemWEvents toolAtt.items ++ finishPhase "" (BlockingOutcome.ok tevs resp) := by
    simp only [runWorker, hok, hzero]
  have hdrain : drainLoop (runWorker toolAtt fbAtt (BlockingOutcome.ok tevs resp))
      Option.none =
      (forwardItems toolAtt.items ++ (tevs.map CEvent.tool ++ [CEvent.token resp]),
        DrainOutcome.finished (some resp)) := by
    rw [hw, drainLoop_items_append, drainLoop_finish_empty_ok]
  have hevs : streamGenerator (runWorker toolAtt fbAtt (BlockingOutcome.ok tevs resp))
      persistOk =
      CEvent.start ::
        ((forwardItems toolAtt.items ++ (tevs.map CEvent.tool ++ [CEvent.token resp])) ++
          convEvents (some resp) persistOk ++ [CEvent.done]) := by
    simp only [streamGenerator, hdrain]
  refine ⟨hevs, ?_, ?_⟩
  · rw [hevs]
    show cWarnCount ((forwardItems toolAtt.items ++
      (tevs.map CEvent.tool ++ [CEvent.token resp])) ++
        convEvents (some resp) persistOk ++ [CEvent.done]) = 0
    rw [cWarnCount_append, cWarnCount_append, cWarnCount_append, cWarnCount_append,
      (counts_forwardItems toolAtt.items).2.2, (counts_toolMap tevs).2.2,
      (counts_convEvents (some resp) persistOk).2.2.1]
    rfl
  · intro hne hpo
    simp [convEvents, hne, hpo]

/-- C7 witness: a zero-token streaming attempt followed by a blocking fallback
answering `"hello"`, with persistence succeeding. -/
theorem zero_token_fallback_witness :
    streamGenerator (runWorker ⟨[], Option.none⟩ ⟨[], Option.none⟩
        (BlockingOutcome.ok [] "hello")) true =
      CEvent.start ::
        ((forwardItems [] ++ (List.map CEvent.tool [] ++ [CEvent.token "hello"])) ++
          convEvents (some "hello") true ++ [CEvent.done]) ∧
    convEvents (some "hello") true = [CEvent.conversation] :=
  ⟨(zero_token_fallback ⟨[], Option.none⟩ ⟨[], Option.none⟩ [] "hello" true rfl rfl).1,
   (zero_token_fallback ⟨[], Option.none⟩ ⟨[], Option.none⟩ [] "hello" true rfl rfl).2.2
     (by decide) rfl⟩

/-! ## Conversation history window (`fetch_recent_messages` / `serialize_history`) -/

/-- A persisted agent message row; `createdAt` is the creation timestamp. -/
structure AgentMessage where
  conversationId : Nat
  role : String
  content : String
  createdAt : Nat
deriving DecidableEq

/-- `ORDER BY created_at DESC`: newest first. -/
def msgDescRel : AgentMessage → AgentMessage → Prop :=
  fun a b => b.createdAt ≤ a.createdAt

instance : DecidableRel msgDescRel :=
  fun a b => inferInstanceAs (Decidable (b.createdAt ≤ a.createdAt))

instance : IsTotal AgentMessage msgDescRel :=
  ⟨fun a b => Nat.le_total b.createdAt a.createdAt⟩

instance : IsTrans AgentMessage msgDescRel :=
  ⟨fun _ _ _ hab hbc => Nat.le_trans hbc hab⟩

/-- Embeds `fetch_recent_messages`: for a non-positive limit return `[]`;
otherwise filter the table to the conversation, order newest-first, keep the
first `history_limit` rows and reverse into chronological order. -/
def fetchRecentMessages (db : List AgentMessage) (cid : Nat) (historyLimit : Int) :
    List AgentMessage :=
  if historyLimit ≤ 0 then []
  else
    ((List.insertionSort msgDescRel
      (db.filter (fun m => m.conversationId == cid))).take historyLimit.toNat).reverse

/-- A serialized role/content pair. -/
structure HistoryEntry where
  role : String
  content : String
deriving DecidableEq

/-- `{"role": str(...), "content": str(...)}`. -/
def toHistoryEntry (m : AgentMessage) : HistoryEntry :=
  ⟨m.role, m.content⟩

/-- Embeds `serialize_history`: non-positive limit yields `[]`; otherwise the
last `history_limit` messages (`messages[-history_limit:]`) mapped to
role/content pairs, order preserved. -/
def serializeHistory (messages : List AgentMessage) (historyLimit : Int) :
    List HistoryEntry :=
  if historyLimit ≤ 0 then []
  else (messages.drop (messages.length - historyLimit.toNat)).map toHistoryEntry

/-- C9: `fetch_recent_messages` returns at most `N` messages, all rows of the
requested conversation, in ascending creation-time order; every conversation
row it leaves out is no newer than every row it returns (it keeps the newest
`N`); `N ≤ 0` yields `[]`, not an error and not an unlimited result; and
`serialize_history` applies the same window (a suffix of the full serialized
list, of length at most `N`, `[]` for `N ≤ 0`). -/
theorem history_window :
    (∀ (db : List AgentMessage) (cid : Nat) (n : Int), n ≤ 0 →
      fetchRecentMessages db cid n = []) ∧
    (∀ db cid n, (fetchRecentMessages db cid n).length ≤ n.toNat) ∧
    (∀ db cid n, (fetchRecentMessages db cid n).Pairwise
      (fun a b => a.createdAt ≤ b.createdAt)) ∧
    (∀ db cid n m, m ∈ fetchRecentMessages db cid n → m.conversationId = cid ∧ m ∈ db) ∧
    (∀ db cid (n : Int) a b,
      a ∈ (List.insertionSort msgDescRel
        (db.filter (fun m => m.conversationId == cid))).drop n.toNat →
      b ∈ fetchRecentMessages db cid n → a.createdAt ≤ b.createdAt) ∧
    (∀ (msgs : List AgentMessage) (n : Int), n ≤ 0 → serializeHistory msgs n = []) ∧
    (∀ msgs n, (serializeHistory msgs n).length ≤ n.toNat) ∧
    (∀ msgs n, serializeHistory msgs n <:+ msgs.map toHistoryEntry) := by
  refine ⟨?_, ?_, ?_, ?_, ?_, ?_, ?_, ?_⟩
  · intro db cid n h
    simp [fetchRecentMessages, h]
  · intro db cid n
    by_cases h : n ≤ 0
    · simp [fetchRecentMessages, h]
    · simp only [fetchRecentMessages, if_neg h, List.length_reverse]
      exact (List.length_take_le _ _)
  · intro db cid n
    by_cases h : n ≤ 0
    · simp [fetchRecentMessages, h]
    · simp only [fetchRecentMessages, if_neg h]
      rw [List.pairwise_reverse]
      exact List.Pairwise.sublist (List.take_sublist _ _)
        (List.sorted_insertionSort msgDescRel _)
  · intro db cid n m hm
    by_cases h : n ≤ 0
    · simp [fetchRecentMessages, h] at hm
    · simp only [fetchRecentMessages, if_neg h, List.mem_reverse] at hm
      have hsorted : m ∈ List.insertionSort msgDescRel
          (db.filter (fun m => m.conversationId == cid)) :=
        (List.take_sublist _ _).mem hm
      have hfilter : m ∈ db.filter (fun m => m.conversationId == cid) :=
        ((List.perm_insertionSort msgDescRel _).mem_iff).mp hsorted
      rcases List.mem_filter.mp hfilter with ⟨hdb, hcid⟩
      exact ⟨by simpa using hcid, hdb⟩
  · intro db cid n a b ha hb
    by_cases h : n ≤ 0
    · simp [fetchRecentMessages, h] at hb
    · simp only [fetchRecentMessages, if_neg h, List.mem_reverse] at hb
      have hsorted := List.sorted_insertionSort msgDescRel
        (db.filter (fun m => m.conversationId == cid))
      have hsplit := List.take_append_drop n.toNat
        (List.insertionSort msgDescRel (db.filter (fun m => m.conversationId == cid)))
      rw [← hsplit] at hsorted
      rcases List.pairwise_append.mp hsorted with ⟨_, _, hcross⟩
      exact hcross b hb a ha
  · intro msgs n h
    simp [serializeHistory, h]
  · intro msgs n
    by_cases h : n ≤ 0
    · simp [serializeHistory, h]
    · simp only [serializeHistory, if_neg h, List.length_map, List.length_drop]
      omega
  · intro msgs n
    by_cases h : n ≤ 0
    · simp [serializeHistory, h]
    · simp only [serializeHistory, if_neg h]
      rw [List.map_drop]
      exact List.drop_suffix _ _

/-- C9 witness: concrete window — a three-row table, limit 2, keeps the two
newest rows of the conversation in ascending time order, and the degenerate
limits return `[]`. -/
theorem history_window_witness :
    fetchRecentMessages
      [⟨1, "user", "a", 10⟩, ⟨1, "assistant", "b", 20⟩, ⟨1, "user", "c", 30⟩] 1 2 =
        [⟨1, "assistant", "b", 20⟩, ⟨1, "user", "c", 30⟩] ∧
    ((0 : Int) ≤ 0 ∧ fetchRecentMessages
      [⟨1, "user", "a", 10⟩, ⟨1, "assistant", "b", 20⟩, ⟨1, "user", "c", 30⟩] 1 0 = []) ∧
    serializeHistory [⟨1, "user", "a", 10⟩, ⟨1, "assistant", "b", 20⟩] 1 =
      [⟨"assistant", "b"⟩] :=
  ⟨by decide,
   ⟨by decide,
    history_window.1 [⟨1, "user", "a", 10⟩, ⟨1, "assistant", "b", 20⟩, ⟨1, "user", "c", 30⟩]
      1 0 (by decide)⟩,
   by decide⟩

/-! ## Tool wrapping (`build_tool_wrappers`) -/

/-- Python `\s` over ASCII (`re` default). -/
def isPySpace (c : Char) : Bool :=
  c = ' ' || c = '\t' || c = '\n' || c = '\r' || c = Char.ofNat 11 || c = Char.ofNat 12

/-- `pat` (already lowercase) begins the character list, comparing
case-insensitively. -/
def charsBeginCI : List Char → List Char → Bool
  | [], _ => true
  | _ :: _, [] => false
  | p :: ps, c :: cs => p == c.toLower && charsBeginCI ps cs

/-- Drop characters up to and including the first newline; `Option.none` when
no newline follows (the regex `.*?\n` then has no match). -/
def dropThroughNewline : List Char → Option (List Char)
  | [] => Option.none
  | c :: rest => if c = '\n' then some rest else dropThroughNewline rest

/-- Attempt to match `\s*user_id:.*?\n` (case-insensitive) at the head of the
list; returns the remainder after the match.  The greedy `\s*` is the maximal
whitespace run — no shorter run can be followed by `user_id:`, whose first
character is not whitespace. -/
def matchUserIdAt (l : List Char) : Option (List Char) :=
  let rest := l.dropWhile isPySpace
  if charsBeginCI "user_id:".data rest then dropThroughNewline (rest.drop 8)
  else Option.none

/-- Left-to-right scan of `re.sub(r"\s*user_id:.*?\n", "", doc)`: remove each
leftmost non-overlapping match, continuing after it.  `fuel` bounds the scan;
each step consumes at least one character, so `fuel = length` suffices. -/
def subUserIdAux : Nat → List Char → List Char
  | 0, l => l
  | _ + 1, [] => []
  | fuel + 1, c :: rest =>
    match matchUserIdAt (c :: rest) with
    | some rem => subUserIdAux fuel rem
    | Option.none => c :: subUserIdAux fuel rest

/-- The docstring edit of `build_tool_wrappers`. -/
def removeUserIdDoc (doc : String) : String :=
  String.mk (subUserIdAux doc.data.length doc.data)

/-- A raw agent tool as `build_tool_wrappers` sees it: its `__name__`, the
parameter names of its signature, its `__doc__`, and its call behaviour as a
function of the keyword-argument bag (`R` abstracts the tool's result). -/
structure PyTool (R : Type) where
  name : String
  params : List String
  doc : Option String
  call : List (String × PyVal) → R

/-- Embeds `_wrap_tool`: a tool whose signature has a `user_id` parameter is
wrapped so the call binds `user_id` to the authenticated user (overriding any
caller-supplied value), the exposed signature drops `user_id`, and the
docstring has its `user_id: ...` line removed (a falsy empty docstring becomes
`None`); other tools are returned unchanged. -/
def wrapTool {R : Type} (userId : String) (t : PyTool R) : PyTool R :=
  if "user_id" ∈ t.params then
    { name := t.name
      params := t.params.filter (fun p => p ≠ "user_id")
      doc :=
        match t.doc with
        | some d => if d = "" then Option.none else some (removeUserIdDoc d)
        | Option.none => Option.none
      call := fun kwargs => t.call (kwInsert kwargs "user_id" (PyVal.str userId)) }
  else t

/-- Embeds `build_tool_wrappers` applied to an explicit tool list. -/
def buildToolWrappers {R : Type} (userId : String) (tools : List (PyTool R)) :
    List (PyTool R) :=
  tools.map (wrapTool userId)

/-- The repository tool's docstring style: the `user_id` Args line is
newline-terminated and `user_id` occurs nowhere else. -/
def exampleToolDoc : String :=
  "Alert administrators via Telegram.\n\nArgs:\n    user_id: The ID of the user\n    issue_description: Clear description\n"

/-- C8 counterexample: a raw tool whose docstring mentions `user_id` outside
the `user_id: ...` Args-line pattern — the wrapper's docstring still mentions
`user_id`, so the claim that the wrapped docstring no longer mentions the
parameter fails. -/
theorem wrapTool_doc_counterexample :
    ("user_id" ∈ (PyTool.mk "t" ["user_id", "msg"]
        (some "Relies on the ambient user_id value\n")
        (fun kwargs => kwargs)).params) ∧
    (wrapTool "U" (PyTool.mk "t" ["user_id", "msg"]
        (some "Relies on the ambient user_id value\n")
        (fun kwargs => kwargs))).doc =
      some "Relies on the ambient user_id value\n" ∧
    strContains "Relies on the ambient user_id value\n" "user_id" = true := by
  exact ⟨by decide, by decide, by decide⟩

/-- C8 (amended): the wrapper of a tool with a `user_id` parameter invokes the
underlying tool with `user_id` bound to the authenticated user, overriding any
caller-supplied keyword and leaving all other keywords untouched; the exposed
signature never contains `user_id`; tools without a `user_id` parameter are
returned unchanged; and a docstring documenting `user_id` only in the standard
newline-terminated `user_id: ...` form loses every mention of `user_id`
(mentions outside that pattern may survive). -/
theorem buildToolWrappers_inject_user :
    (∀ (R : Type) (U : String) (t : PyTool R), "user_id" ∉ (wrapTool U t).params) ∧
    (∀ (R : Type) (U : String) (t : PyTool R) (kwargs : List (String × PyVal)),
      "user_id" ∈ t.params →
      ∃ kwargs', (wrapTool U t).call kwargs = t.call kwargs' ∧
        kwFind kwargs' "user_id" = some (PyVal.str U) ∧
        ∀ k, k ≠ "user_id" → kwFind kwargs' k = kwFind kwargs k) ∧
    (∀ (R : Type) (U : String) (t : PyTool R), "user_id" ∉ t.params → wrapTool U t = t) ∧
    (∀ (R : Type) (U : String) (tools : List (PyTool R)),
      buildToolWrappers U tools = tools.map (wrapTool U)) ∧
    (strContains exampleToolDoc "user_id" = true ∧
      strContains (removeUserIdDoc exampleToolDoc) "user_id" = false) := by
  refine ⟨?_, ?_, ?_, fun _ _ _ => rfl, by decide, by decide⟩
  · intro R U t
    by_cases h : "user_id" ∈ t.params
    · simp only [wrapTool, if_pos h]
      intro hmem
      rcases List.mem_filter.mp hmem with ⟨_, hne⟩
      simp at hne
    · simp only [wrapTool, if_neg h]
      exact h
  · intro R U t kwargs h
    refine ⟨kwInsert kwargs "user_id" (PyVal.str U), ?_, ?_, ?_⟩
    · simp only [wrapTool, if_pos h]
    · exact kwFind_kwInsert_self kwargs "user_id" (PyVal.str U)
    · intro k hk
      exact kwFind_kwInsert_ne kwargs "user_id" k (PyVal.str U) hk
  · intro R U t h
    simp only [wrapTool, if_neg h]

/-- C8 witness: a concrete two-parameter tool — the wrapper's call binds
`user_id` over the caller's value and the other keyword is preserved. -/
theorem buildToolWrappers_inject_user_witness :
    ("user_id" ∈ (PyTool.mk "t" ["user_id", "msg"] Option.none
      (fun kwargs => kwargs)).params) ∧
    (∃ kwargs',
      (wrapTool "U7" (PyTool.mk "t" ["user_id", "msg"] Option.none
        (fun kwargs => kwargs))).call [("user_id", PyVal.str "fake"), ("msg", PyVal.str "m")] =
          (PyTool.mk "t" ["user_id", "msg"] Option.none
            (fun kwargs => kwargs)).call kwargs' ∧
        kwFind kwargs' "user_id" = some (PyVal.str "U7") ∧
        ∀ k, k ≠ "user_id" →
          kwFind kwargs' k = kwFind [("user_id", PyVal.str "fake"), ("msg", PyVal.str "m")] k) :=
  ⟨by decide,
   buildToolWrappers_inject_user.2.1 (List (String × PyVal)) "U7"
     (PyTool.mk "t" ["user_id", "msg"] Option.none (fun kwargs => kwargs))
     [("user_id", PyVal.str "fake"), ("msg", PyVal.str "m")] (by decide)⟩

end Memegen
